import Mathlib

/-!
Verification development for the FluxDb storage engine
(crates/fluxdb-core plus the earlier src/ generation of the same repository).

Conventions of the shallow embedding:
* bytes are natural numbers (every value produced by the embedded code is < 256);
* Rust fixed-width integer arithmetic is modelled on Nat with explicit
  reductions mod 2^w at the points where the source casts or stores values
  (release-profile wrap-around semantics); where the source panics in every
  profile (failed slice bounds, failed assert, unwrap on None) the embedded
  operation returns a distinguished panic outcome;
* fallible Rust functions returning Result/Option become functions into
  Option or into the outcome types below;
* loops over the on-disk page chain are given explicit fuel; running out of
  fuel is a separate outcome so that it can never be confused with any
  behaviour of the source.

The file is laid out as definitions first, theorems second.
-/

namespace FluxDb

/-! ### Byte-buffer primitives -/

/-- `to_le_bytes` on a `w`-byte integer: little-endian byte list of `v mod 256^w`. -/
def toLE : Nat → Nat → List Nat
  | 0, _ => []
  | w + 1, v => (v % 256) :: toLE w (v / 256)

/-- `from_le_bytes`: read a little-endian byte list back into a number. -/
def fromLE : List Nat → Nat
  | [] => 0
  | b :: l => b + 256 * fromLE l

/-- Model of writing `bs` into a byte buffer at offset `off`
(`buf[off..off+bs.len()].copy_from_slice(bs)`); `none` is the slice-bounds
panic. -/
def writeAt (buf : List Nat) (off : Nat) (bs : List Nat) : Option (List Nat) :=
  if off + bs.length ≤ buf.length then
    some (buf.take off ++ bs ++ buf.drop (off + bs.length))
  else none

/-- Model of the borrow `&buf[off..off+len]`; `none` is the bounds panic. -/
def readAt (buf : List Nat) (off len : Nat) : Option (List Nat) :=
  if off + len ≤ buf.length then some ((buf.drop off).take len) else none

/-! ### CRC-32 (the `crc32fast` dependency: standard reflected CRC-32/IEEE) -/

/-- One bit step of the reflected CRC-32 with polynomial `0xEDB88320`. -/
def crc32Round (c : Nat) : Nat :=
  if c % 2 = 1 then (c / 2) ^^^ 0xEDB88320 else c / 2

/-- Eight bit steps: one input byte consumed. -/
def crc32Byte (c : Nat) : Nat := crc32Round^[8] c

/-- CRC-32 of a byte list (`Hasher::new` / `update` / `finalize`). -/
def crc32 (bytes : List Nat) : Nat :=
  (bytes.foldl (fun c b => crc32Byte (c ^^^ b % 256)) 0xFFFFFFFF) ^^^ 0xFFFFFFFF

/-! ### UTF-8 validity and Rust strings

A Rust `String` is a byte vector that is valid UTF-8; `std::str::from_utf8`
is the validity check.  `utf8Valid` is the UTF-8 table: ASCII, two-byte
C2..DF, three-byte E0/E1..EC/ED/EE..EF with their continuation ranges
(surrogates excluded), four-byte F0/F1..F3/F4 with theirs. -/

/-- A UTF-8 continuation byte: `0x80..=0xBF`. -/
def contByte (c : Nat) : Bool := 0x80 ≤ c && c ≤ 0xBF

/-- UTF-8 validity of a byte list, as checked by `std::str::from_utf8`. -/
def utf8Valid : List Nat → Bool
  | [] => true
  | b :: rest =>
    if b ≤ 0x7F then utf8Valid rest
    else if 0xC2 ≤ b && b ≤ 0xDF then
      match rest with
      | c1 :: r => contByte c1 && utf8Valid r
      | [] => false
    else if b = 0xE0 then
      match rest with
      | c1 :: c2 :: r => (0xA0 ≤ c1 && c1 ≤ 0xBF) && contByte c2 && utf8Valid r
      | _ => false
    else if (0xE1 ≤ b && b ≤ 0xEC) || b = 0xEE || b = 0xEF then
      match rest with
      | c1 :: c2 :: r => contByte c1 && contByte c2 && utf8Valid r
      | _ => false
    else if b = 0xED then
      match rest with
      | c1 :: c2 :: r => (0x80 ≤ c1 && c1 ≤ 0x9F) && contByte c2 && utf8Valid r
      | _ => false
    else if b = 0xF0 then
      match rest with
      | c1 :: c2 :: c3 :: r =>
        (0x90 ≤ c1 && c1 ≤ 0xBF) && contByte c2 && contByte c3 && utf8Valid r
      | _ => false
    else if 0xF1 ≤ b && b ≤ 0xF3 then
      match rest with
      | c1 :: c2 :: c3 :: r => contByte c1 && contByte c2 && contByte c3 && utf8Valid r
      | _ => false
    else if b = 0xF4 then
      match rest with
      | c1 :: c2 :: c3 :: r =>
        (0x80 ≤ c1 && c1 ≤ 0x8F) && contByte c2 && contByte c3 && utf8Valid r
      | _ => false
    else false

/-- A Rust `String`: its UTF-8 bytes together with the validity invariant. -/
structure ByteStr where
  bytes : List Nat
  valid : utf8Valid bytes = true

instance : DecidableEq ByteStr := fun a b =>
  if h : a.bytes = b.bytes then
    isTrue (by cases a; cases b; cases h; rfl)
  else isFalse (by intro e; cases e; exact h rfl)

/-! ### File header (crates/fluxdb-core/src/general/header.rs) -/

/-- `DB_MAGIC = *b"FLUXDB_FASTV1\0\0\0"` as bytes. -/
def DB_MAGIC : List Nat := [70, 76, 85, 88, 68, 66, 95, 70, 65, 83, 84, 86, 49, 0, 0, 0]

def DB_HEADER_SIZE : Nat := 128

def DB_VERSION : Nat := 1

/-- The `CHECKSUM_ENABLED` bit of `HeaderFlags`. -/
def CHECKSUM_ENABLED : Nat := 1

/-- `Header`: the 128-byte file header.  `flags` carries the `HeaderFlags`
bit set (only bits 0..3 are defined; `from_bits_truncate` masks the rest). -/
structure Header where
  magic : List Nat
  headerSize : Nat
  pageSize : Nat
  dbVersion : Nat
  writeVersion : Nat
  readVersion : Nat
  flags : Nat
  createdAt : Nat
  pageCount : Nat
  checksum : Nat
  chunkCatalogRootPageId : Nat
  reserved : List Nat
  deriving DecidableEq

/-- `Header::write_without_checksum`: every field except `checksum`,
serialized little-endian in declaration order. -/
def headerBytesNoChecksum (h : Header) : List Nat :=
  h.magic ++ toLE 2 h.headerSize ++ toLE 2 h.pageSize ++ toLE 4 h.dbVersion ++
    [h.writeVersion % 256] ++ [h.readVersion % 256] ++ toLE 2 h.flags ++
    toLE 8 h.createdAt ++ toLE 8 h.pageCount ++ toLE 4 h.chunkCatalogRootPageId ++
    h.reserved

/-- `Header::compute_checksum`. -/
def computeChecksum (h : Header) : Nat := crc32 (headerBytesNoChecksum h)

/-- The distinct failure points of `Header::read_from`.  `badMagic`,
`badSize` and `badChecksum` are the three `panic!` calls of the source
(the first two sit under `TODO: ADD PROPER ERRORS` comments); `shortRead`
is the `.unwrap()` inside the `read_u16`/`read_u32`/`read_u64`/`read_u8`
helpers of helpers/helper.rs. -/
inductive HFailure
  | badMagic
  | badSize
  | badChecksum
  | shortRead
  deriving DecidableEq

/-- Outcome of `Header::read_from`: success, a propagated `io::Error`
(the `?` operator on `read_exact`), or a process panic. -/
inductive HRead
  | ok (h : Header)
  | ioError
  | panicked (f : HFailure)
  deriving DecidableEq

/-- `Header::read_from`, reading from the start of the given file bytes.
Field offsets: magic 0..16, header_size 16..18, page_size 18..20,
db_version 20..24, write_version 24, read_version 25, flags 26..28,
created_at 28..36, page_count 36..44, checksum 44..48,
chunk_catalog_root_page_id 48..52, reserved 52..128. -/
def headerReadFrom (file : List Nat) : HRead :=
  match readAt file 0 16 with
  | none => .ioError
  | some magic =>
    if magic ≠ DB_MAGIC then .panicked .badMagic
    else
      match readAt file 16 2 with
      | none => .panicked .shortRead
      | some hsB =>
        if fromLE hsB ≠ DB_HEADER_SIZE then .panicked .badSize
        else
          match readAt file 18 2, readAt file 20 4, readAt file 24 1,
            readAt file 25 1, readAt file 26 2, readAt file 28 8,
            readAt file 36 8, readAt file 44 4, readAt file 48 4 with
          | some psB, some dvB, some wvB, some rvB, some flB, some caB,
            some pcB, some ckB, some crB =>
            match readAt file 52 76 with
            | none => .ioError
            | some rsv =>
              let hdr : Header :=
                { magic := magic, headerSize := fromLE hsB, pageSize := fromLE psB,
                  dbVersion := fromLE dvB, writeVersion := fromLE wvB,
                  readVersion := fromLE rvB, flags := fromLE flB % 16,
                  createdAt := fromLE caB, pageCount := fromLE pcB,
                  checksum := fromLE ckB, chunkCatalogRootPageId := fromLE crB,
                  reserved := rsv }
              if hdr.flags % 2 = 1 then
                if computeChecksum hdr ≠ hdr.checksum then .panicked .badChecksum
                else .ok hdr
              else .ok hdr
          | _, _, _, _, _, _, _, _, _ => .panicked .shortRead

/-! ### Record tagging (crates/fluxdb-core/src/metadata/record_type.rs and
record.rs) -/

/-- The `RecordType` enum of metadata/record_type.rs.  Its declared
discriminants are CatalogRoot=0, CatalogTable=1, CatalogColumn=2,
ChunkMeta=3, HeapRow=10, IndexEntry=20.  (The parallel enum in
records/record_type.rs has the same variants minus ChunkMeta.) -/
inductive RecordType
  | catalogRoot
  | catalogTable
  | catalogColumn
  | chunkMeta
  | heapRow
  | indexEntry
  deriving DecidableEq

/-- The declared discriminant of each variant (`record_type as u8`). -/
def RecordType.tag : RecordType → Nat
  | .catalogRoot => 0
  | .catalogTable => 1
  | .catalogColumn => 2
  | .chunkMeta => 3
  | .heapRow => 10
  | .indexEntry => 20

/-- `RecordType::from_u8` exactly as written in metadata/record_type.rs:
note that `3` is mapped to `CatalogColumn` (not `ChunkMeta`), and every
unknown value falls through to `CatalogTable`. -/
def RecordType.fromU8 (v : Nat) : RecordType :=
  if v = 0 then .catalogRoot
  else if v = 1 then .catalogTable
  else if v = 2 then .catalogColumn
  else if v = 3 then .catalogColumn
  else if v = 10 then .heapRow
  else if v = 20 then .indexEntry
  else .catalogTable

/-- `RecordType::from_u8` of records/record_type.rs (the generation used by
pager/pager.rs): no arm for 3 at all; unknown values fall through to
`CatalogTable`. -/
def RecordType.fromU8R (v : Nat) : RecordType :=
  if v = 0 then .catalogRoot
  else if v = 1 then .catalogTable
  else if v = 2 then .catalogColumn
  else if v = 10 then .heapRow
  else if v = 20 then .indexEntry
  else .catalogTable

/-- `Record::encode`: tag byte followed by the payload. -/
def recordEncode (rt : RecordType) (payload : List Nat) : List Nat :=
  rt.tag :: payload

/-- `Record::decode`: `None` only on the empty buffer, otherwise the tag is
interpreted by `RecordType::from_u8` and the rest is the payload. -/
def recordDecode (buf : List Nat) : Option (RecordType × List Nat) :=
  match buf with
  | [] => none
  | b :: rest => some (RecordType.fromU8 b, rest)

/-- Modelled from the spec: `records/record.rs` (the `Record` codec used by
pager/pager.rs) is absent from the tree; per the spec the wire format is
`[tag: u8][payload]`, with the tag interpreted by the from_u8 of
records/record_type.rs, which is present. -/
def recordDecodeR (buf : List Nat) : Option (RecordType × List Nat) :=
  match buf with
  | [] => none
  | b :: rest => some (RecordType.fromU8R b, rest)

/-! ### Metadata record codecs (crates/fluxdb-core/src/metadata/schema) -/

/-- Outcome of a `deserialize`: success, the `Err(String)` path (only the
"utf8 error" message exists in the sources), or a panic (failed slice
index or the `panic!()` in `ColumnType::from_u8`). -/
inductive DRes (α : Type)
  | ok (a : α)
  | err
  | panicked
  deriving DecidableEq

/-- `ColumnType` (metadata/schema/column_type.rs), discriminants 0..6. -/
inductive ColumnType
  | integer32
  | integer64
  | float32
  | float64
  | utf8
  | timestamp
  | boolean
  deriving DecidableEq

/-- `column_type as u8`: declaration-order discriminants. -/
def ColumnType.tag : ColumnType → Nat
  | .integer32 => 0
  | .integer64 => 1
  | .float32 => 2
  | .float64 => 3
  | .utf8 => 4
  | .timestamp => 5
  | .boolean => 6

/-- `ColumnType::from_u8`; the catch-all arm is `panic!()`, hence `none`. -/
def ColumnType.fromU8 (v : Nat) : Option ColumnType :=
  if v = 0 then some .integer32
  else if v = 1 then some .integer64
  else if v = 2 then some .float32
  else if v = 3 then some .float64
  else if v = 4 then some .utf8
  else if v = 5 then some .timestamp
  else if v = 6 then some .boolean
  else none

/-- `CatalogRoot` (metadata/schema/catalog_root.rs). -/
structure CatalogRoot where
  version : Nat
  nextTableId : Nat
  nextColumnId : Nat
  catalogRootPageId : Nat
  deriving DecidableEq

/-- `CatalogRoot::serialize`: version u16, next_table_id u32,
next_column_id u32, catalog_root_page_id u32, little-endian. -/
def CatalogRoot.serialize (r : CatalogRoot) : List Nat :=
  toLE 2 r.version ++ toLE 4 r.nextTableId ++ toLE 4 r.nextColumnId ++
    toLE 4 r.catalogRootPageId

/-- `CatalogRoot::deserialize`; the slice indexing panics on payloads
shorter than 14 bytes. -/
def CatalogRoot.deserialize (p : List Nat) : DRes CatalogRoot :=
  match readAt p 0 2, readAt p 2 4, readAt p 6 4, readAt p 10 4 with
  | some vB, some tB, some cB, some gB =>
    .ok { version := fromLE vB, nextTableId := fromLE tB,
          nextColumnId := fromLE cB, catalogRootPageId := fromLE gB }
  | _, _, _, _ => .panicked

/-- `TableMeta` (metadata/schema/table_meta.rs; the struct in the missing
records/table_meta.rs has the same two fields, as witnessed by its uses in
pager/pager.rs and by the spec). -/
structure TableMeta where
  tableId : Nat
  name : ByteStr
  deriving DecidableEq

/-- `TableMeta::serialize`: table_id u32 little-endian, then the raw name
bytes (no length marker — the name is the remainder of the payload). -/
def TableMeta.serialize (t : TableMeta) : List Nat :=
  toLE 4 t.tableId ++ t.name.bytes

/-- `TableMeta::deserialize`: id from bytes 0..4 (slice panic when
shorter), then `from_utf8` of the remainder (`Err("utf8 error")` when
invalid). -/
def TableMeta.deserialize (p : List Nat) : DRes TableMeta :=
  match readAt p 0 4 with
  | none => .panicked
  | some idB =>
    if hv : utf8Valid (p.drop 4) = true then
      .ok { tableId := fromLE idB, name := ⟨p.drop 4, hv⟩ }
    else .err

/-- `TableColumn` (metadata/schema/table_column.rs). -/
structure TableColumn where
  tableId : Nat
  columnId : Nat
  columnType : ColumnType
  name : ByteStr
  deriving DecidableEq

/-- `TableColumn::serialize`: table_id u32, column_id u32, the column-type
tag byte, then the raw name bytes. -/
def TableColumn.serialize (c : TableColumn) : List Nat :=
  toLE 4 c.tableId ++ toLE 4 c.columnId ++ [c.columnType.tag] ++ c.name.bytes

/-- `TableColumn::deserialize`: ids from bytes 0..8 and the type byte at 8
(slice panics when shorter); `from_utf8` of the remainder is checked
before `ColumnType::from_u8` runs (so an invalid name errs while an
unknown type byte panics, in that order, as in the source). -/
def TableColumn.deserialize (p : List Nat) : DRes TableColumn :=
  match readAt p 0 4, readAt p 4 4, readAt p 8 1 with
  | some tB, some cB, some yB =>
    if hv : utf8Valid (p.drop 9) = true then
      match ColumnType.fromU8 (fromLE yB) with
      | some ct =>
        .ok { tableId := fromLE tB, columnId := fromLE cB, columnType := ct,
              name := ⟨p.drop 9, hv⟩ }
      | none => .panicked
    else .err
  | _, _, _ => .panicked

/-- `TableColumn` of records/table_column.rs (the generation used by
pager/pager.rs): no column-type field. -/
structure TableColumnR where
  tableId : Nat
  columnId : Nat
  name : ByteStr
  deriving DecidableEq

/-- records/table_column.rs `serialize`: table_id u32, column_id u32, raw
name bytes. -/
def TableColumnR.serialize (c : TableColumnR) : List Nat :=
  toLE 4 c.tableId ++ toLE 4 c.columnId ++ c.name.bytes

/-- records/table_column.rs `deserialize`. -/
def TableColumnR.deserialize (p : List Nat) : DRes TableColumnR :=
  match readAt p 0 4, readAt p 4 4 with
  | some tB, some cB =>
    if hv : utf8Valid (p.drop 8) = true then
      .ok { tableId := fromLE tB, columnId := fromLE cB, name := ⟨p.drop 8, hv⟩ }
    else .err
  | _, _ => .panicked

/-! ### Byte-level slotted page (crates/fluxdb-core/src/storage) -/

/-- `PageType` (storage/page_type.rs), discriminants 1..4. -/
inductive PageType
  | dataPage
  | heapPage
  | indexPage
  | catalogPage
  deriving DecidableEq

def PageType.tag : PageType → Nat
  | .dataPage => 1
  | .heapPage => 2
  | .indexPage => 3
  | .catalogPage => 4

/-- `Slot::SIZE` (offset u16 + length u16). -/
def SLOT_SIZE : Nat := 4

/-- `PageHeader::SIZE` of storage/page_header.rs. -/
def PAGE_HEADER_SIZE : Nat := 24

/-- `HeapPageHeader::SIZE`: slot_count u16 + free_start u16 + free_end u16. -/
def HEAP_HEADER_SIZE : Nat := 6

/-- The heap sub-header triple of storage/heap_page_header.rs. -/
structure HeapLayout where
  slotCount : Nat
  freeStart : Nat
  freeEnd : Nat
  deriving DecidableEq

/-- `HeapPageHeader::read_from(&buf[24..30])`: the borrow panics when the
buffer is shorter than 30 bytes, hence `none`. -/
def readHeapHeader (buf : List Nat) : Option HeapLayout :=
  match readAt buf PAGE_HEADER_SIZE HEAP_HEADER_SIZE with
  | none => none
  | some six =>
    some { slotCount := fromLE (six.take 2),
           freeStart := fromLE ((six.drop 2).take 2),
           freeEnd := fromLE (six.drop 4) }

/-- `HeapPageHeader::write_to`: the three u16 fields little-endian. -/
def heapHeaderBytes (l : HeapLayout) : List Nat :=
  toLE 2 l.slotCount ++ toLE 2 l.freeStart ++ toLE 2 l.freeEnd

/-- The generic page-header bytes written by `Page::new`.  The two-argument
`PageHeader::new(page_type, page_id)` call in storage/page.rs has no
matching constructor in the tree (page_header.rs declares a four-argument
one), so the slot_count/free_start/free_end fields inside `PageHeader` are
modelled as zero-initialized; nothing in the heap operations ever reads
them — the live sub-header is the `HeapPageHeader` at offset 24. -/
def pageHeaderBytes (ptype : PageType) (pageId : Nat) : List Nat :=
  [ptype.tag] ++ toLE 2 0 ++ toLE 2 0 ++ toLE 2 0 ++ toLE 4 pageId ++
    toLE 4 0 ++ List.replicate 9 0

/-- `Page::new` (storage/page.rs): zero-fill, write the page header, then
an empty heap sub-header with `free_start = 30` and
`free_end = page_size as u16`.  `none` models the panics: the non-heap
page-type arm, and the header writes on a buffer shorter than 30. -/
def pageNew (pageSize : Nat) (ptype : PageType) (pageId : Nat) : Option (List Nat) :=
  match ptype with
  | .heapPage | .catalogPage =>
    match writeAt (List.replicate pageSize 0) 0 (pageHeaderBytes ptype pageId) with
    | none => none
    | some b1 =>
      writeAt b1 PAGE_HEADER_SIZE
        (heapHeaderBytes
          { slotCount := 0, freeStart := (PAGE_HEADER_SIZE + HEAP_HEADER_SIZE) % 65536,
            freeEnd := pageSize % 65536 })
  | _ => none

/-- Outcome of `Page::insert_heap_record` on the raw buffer: the new buffer,
the `Err("Not enough space on page")` return (which leaves `self.buf`
untouched — the error carries the unchanged buffer), or a panic. -/
inductive HeapIns
  | ok (buf : List Nat)
  | errFull (buf : List Nat)
  | panicked
  deriving DecidableEq

/-- `Page::insert_heap_record` (storage/page.rs lines 115-150), on the raw
page buffer.  u16 casts and arithmetic are reduced mod 65536; the
`free_end as usize - SLOT_SIZE` subtraction is guarded (underflow panics in
debug and indexes out of bounds in release, a panic either way). -/
def insertHeapRecord (buf : List Nat) (record : List Nat) : HeapIns :=
  match readHeapHeader buf with
  | none => .panicked
  | some l =>
    let recLen := record.length % 65536
    let required := (recLen + SLOT_SIZE) % 65536
    let freeSpace := (l.freeEnd + 65536 - l.freeStart) % 65536
    if required > freeSpace then .errFull buf
    else
      match writeAt buf l.freeStart record with
      | none => .panicked
      | some b1 =>
        if l.freeEnd < SLOT_SIZE then .panicked
        else
          match writeAt b1 (l.freeEnd - SLOT_SIZE) (toLE 2 l.freeStart ++ toLE 2 recLen) with
          | none => .panicked
          | some b2 =>
            match writeAt b2 PAGE_HEADER_SIZE
                (heapHeaderBytes
                  { slotCount := (l.slotCount + 1) % 65536,
                    freeStart := (l.freeStart + recLen) % 65536,
                    freeEnd := l.freeEnd - SLOT_SIZE }) with
            | none => .panicked
            | some b3 => .ok b3

/-- `Page::insert_record` (storage/page.rs lines 57-68): dispatch on the
page type; heap and catalog pages go to `insert_heap_record`, anything
else panics. -/
def pageInsertRecord (ptype : PageType) (buf : List Nat) (record : List Nat) : HeapIns :=
  match ptype with
  | .heapPage | .catalogPage => insertHeapRecord buf record
  | _ => .panicked

/-! ### The earlier page generation (src/src/storage/page.rs over the
old_src/storage page header, the one whose `insert_record` reports the new
slot id) -/

/-- old_src/storage/page_header.rs: page_type u16 (1..3, panic otherwise),
slot_count, free_start, free_end u16, page_id u32; `SIZE = 32`. -/
structure OldHeader where
  pageTypeTag : Nat
  slotCount : Nat
  freeStart : Nat
  freeEnd : Nat
  pageId : Nat
  deriving DecidableEq

/-- `PageHeader::read_from` of the old generation; `none` covers both the
`assert!(buf.len() >= 32)` and the `panic!("Invalid page type")` arm. -/
def oldReadHeader (buf : List Nat) : Option OldHeader :=
  if buf.length < 32 then none
  else
    let pt := fromLE ((buf.take 2))
    if pt = 1 ∨ pt = 2 ∨ pt = 3 then
      some { pageTypeTag := pt,
             slotCount := fromLE ((buf.drop 2).take 2),
             freeStart := fromLE ((buf.drop 4).take 2),
             freeEnd := fromLE ((buf.drop 6).take 2),
             pageId := fromLE ((buf.drop 8).take 4) }
    else none

/-- The 12 bytes written by the old `PageHeader::write_to`. -/
def oldHeaderBytes (h : OldHeader) : List Nat :=
  toLE 2 h.pageTypeTag ++ toLE 2 h.slotCount ++ toLE 2 h.freeStart ++
    toLE 2 h.freeEnd ++ toLE 4 h.pageId

/-- Outcome of the old `Page::insert_record`: `Ok(slot_id)` with the new
buffer, the `Err("Not enough space on page")` return with the untouched
buffer, or a panic. -/
inductive OldIns
  | ok (slotId : Nat) (buf : List Nat)
  | errFull (buf : List Nat)
  | panicked
  deriving DecidableEq

/-- src/src/storage/page.rs `insert_record` (lines 13-49): same slotted
insert, header at offset 0, and it returns `header.slot_count - 1` after
the increment — the slot id.  u16 arithmetic wraps mod 65536. -/
def oldInsertRecord (buf : List Nat) (record : List Nat) : OldIns :=
  match oldReadHeader buf with
  | none => .panicked
  | some h =>
    let availableSpace := (h.freeEnd + 65536 - h.freeStart) % 65536
    let requiredSpace := (record.length % 65536 + SLOT_SIZE) % 65536
    if availableSpace < requiredSpace then .errFull buf
    else
      match writeAt buf h.freeStart record with
      | none => .panicked
      | some b1 =>
        let slotOffset := (h.freeEnd + 65536 - SLOT_SIZE) % 65536
        match writeAt b1 slotOffset (toLE 2 h.freeStart ++ toLE 2 (record.length % 65536)) with
        | none => .panicked
        | some b2 =>
          let newCount := (h.slotCount + 1) % 65536
          match writeAt b2 0 (oldHeaderBytes
              { h with slotCount := newCount,
                       freeStart := (h.freeStart + record.length % 65536) % 65536,
                       freeEnd := (h.freeEnd + 65536 - SLOT_SIZE) % 65536 }) with
          | none => .panicked
          | some b3 => .ok ((newCount + 65536 - 1) % 65536) b3

/-! ### The pager (crates/fluxdb-core/src/pager/pager.rs)

pager/pager.rs drives a `Page` from the module `crate::pager::page`, which
is absent from the tree, as are `records/record.rs`, `records/db_record.rs`,
`records/catalog_root.rs` and `records/table_meta.rs`.  Those pieces are
modelled from the spec (§4.3 for the page, §3 for the record layouts, the
latter agreeing byte for byte with the metadata/schema codecs above, which
are present).  The pager logic itself — chain walking, first-fit insertion
with chain extension, catalog-root load/persist, catalog loading and index
building — is translated directly from pager/pager.rs. -/

/-- Error kinds of `std::io::ErrorKind` used by the pager. -/
inductive FErr
  | invalidData
  | notFound
  | ioError
  | otherE
  deriving DecidableEq

/-- Outcome of a pager operation: success, an `Err` return, a panic, or
fuel exhaustion of the embedding (a loop in the page chain). -/
inductive FRes (α : Type)
  | ok (a : α)
  | err (e : FErr)
  | panicked
  | noFuel
  deriving DecidableEq

/-- Propagation of everything except success (the `?` operator). -/
def FRes.bind : FRes α → (α → FRes β) → FRes β
  | .ok a, f => f a
  | .err e, _ => .err e
  | .panicked, _ => .panicked
  | .noFuel, _ => .noFuel

/-- Modelled from the spec: the slotted page of the missing
crate::pager::page, at record granularity (§4.3).  `slot_count` is
`records.length`; `free_start`/`free_end` do the free-space bookkeeping;
`insert_record` appends when `len + SLOT_SIZE` fits between them and
returns the previous slot count as the new slot id. -/
structure PPage where
  pageType : PageType
  pageId : Nat
  nextPageId : Nat
  freeStart : Nat
  freeEnd : Nat
  records : List (List Nat)
  deriving DecidableEq

/-- Modelled from the spec: `Page::new` — empty page, `free_start` right
after the combined headers, `free_end` at the page end. -/
def PPage.new (pageSize : Nat) (t : PageType) (pid : Nat) : PPage :=
  { pageType := t, pageId := pid, nextPageId := 0,
    freeStart := PAGE_HEADER_SIZE + HEAP_HEADER_SIZE, freeEnd := pageSize,
    records := [] }

/-- Modelled from the spec: `Page::insert_record` at record granularity;
`none` is the page-full error. -/
def PPage.insertRecord (p : PPage) (bytes : List Nat) : Option (Nat × PPage) :=
  if p.freeStart + bytes.length + SLOT_SIZE ≤ p.freeEnd then
    some (p.records.length,
      { p with freeStart := p.freeStart + bytes.length,
               freeEnd := p.freeEnd - SLOT_SIZE,
               records := p.records ++ [bytes] })
  else none

/-- The pager state: the open file as a list of pages indexed by page id
(the header's `page_count` is `pages.length`; `page_offset` is linear in
the id, so the id is the file index). -/
structure PagerState where
  pageSize : Nat
  pages : List PPage
  deriving DecidableEq

/-- `Pager::read_page`: a missing page is an exact-read failure. -/
def readPage (st : PagerState) (pid : Nat) : FRes PPage :=
  match st.pages.get? pid with
  | some p => .ok p
  | none => .err .ioError

/-- `Pager::write_page`. -/
def writePage (st : PagerState) (pid : Nat) (p : PPage) : PagerState :=
  { st with pages := st.pages.set pid p }

/-- `Pager::allocate_page`: next id is the current page count; the fresh
page is written at its offset and the page count incremented. -/
def allocatePage (st : PagerState) (t : PageType) : PPage × PagerState :=
  let p := PPage.new st.pageSize t st.pages.length
  (p, { st with pages := st.pages ++ [p] })

/-- `Pager::load_catalog_root`: read page 0, `read_record(0).unwrap()`,
`Record::decode(raw).unwrap()`, require the CatalogRoot tag, deserialize
(mapping the Err path to InvalidData).  The missing records/catalog_root.rs
codec is spec-modelled by `CatalogRoot.serialize`/`deserialize` above
(§3 gives the identical field list). -/
def loadCatalogRoot (st : PagerState) : FRes CatalogRoot :=
  (readPage st 0).bind fun page0 =>
    match page0.records.get? 0 with
    | none => .panicked
    | some raw =>
      match recordDecodeR raw with
      | none => .panicked
      | some (rt, payload) =>
        if rt ≠ RecordType.catalogRoot then .err .invalidData
        else
          match CatalogRoot.deserialize payload with
          | .ok r => .ok r
          | .err => .err .invalidData
          | .panicked => .panicked

/-- `Pager::persist_catalog_root`: build a fresh page 0 holding only the
CatalogRoot record and write it (insert failure maps to ErrorKind::Other). -/
def persistCatalogRoot (st : PagerState) (root : CatalogRoot) : FRes PagerState :=
  let page0 := PPage.new st.pageSize .catalogPage 0
  match page0.insertRecord (recordEncode .catalogRoot root.serialize) with
  | none => .err .otherE
  | some (_, p0) => .ok (writePage st 0 p0)

/-- The chained first-fit insert loop shared verbatim by
`Pager::create_table` and `Pager::add_column`: try the current page; on
failure follow `next_page_id`, or allocate a fresh catalog page, link it
and continue there. -/
def chainInsert : Nat → PagerState → Nat → List Nat → FRes PagerState
  | 0, _, _, _ => .noFuel
  | fuel + 1, st, pid, bytes =>
    (readPage st pid).bind fun page =>
      match page.insertRecord bytes with
      | some (_, page') => .ok (writePage st pid page')
      | none =>
        if page.nextPageId ≠ 0 then chainInsert fuel st page.nextPageId bytes
        else
          let alloc := allocatePage st .catalogPage
          let st2 := writePage alloc.2 pid { page with nextPageId := alloc.1.pageId }
          chainInsert fuel st2 alloc.1.pageId bytes

/-- `Pager::create_table`: load the root, build the TableMeta with
`table_id = next_table_id`, chain-insert its record, then increment the
counter and persist the root (the u32 counter truncates to 32 bits when
the root is serialized). -/
def createTable (fuel : Nat) (st : PagerState) (name : ByteStr) :
    FRes (TableMeta × PagerState) :=
  (loadCatalogRoot st).bind fun root =>
    let tm : TableMeta := { tableId := root.nextTableId, name := name }
    (chainInsert fuel st root.catalogRootPageId
        (recordEncode .catalogTable tm.serialize)).bind fun st1 =>
      (persistCatalogRoot st1 { root with nextTableId := root.nextTableId + 1 }).bind
        fun st2 => .ok (tm, st2)

/-- The record scan inside one page of `Pager::find_table_by_name`:
`read_record(slot).unwrap()`, `decode(raw).unwrap()`, deserialize
CatalogTable records (Err mapped to InvalidData) and compare names. -/
def findInRecords : List (List Nat) → ByteStr → FRes (Option TableMeta)
  | [], _ => .ok none
  | raw :: rest, name =>
    match recordDecodeR raw with
    | none => .panicked
    | some (rt, payload) =>
      if rt = RecordType.catalogTable then
        match TableMeta.deserialize payload with
        | .ok t => if t.name = name then .ok (some t) else findInRecords rest name
        | .err => .err .invalidData
        | .panicked => .panicked
      else findInRecords rest name

/-- The page loop of `Pager::find_table_by_name` (`while page_id != 0`). -/
def findLoop : Nat → PagerState → Nat → ByteStr → FRes TableMeta
  | 0, _, _, _ => .noFuel
  | fuel + 1, st, pid, name =>
    if pid = 0 then .err .notFound
    else
      (readPage st pid).bind fun page =>
        (findInRecords page.records name).bind fun found =>
          match found with
          | some t => .ok t
          | none => findLoop fuel st page.nextPageId name

/-- `Pager::find_table_by_name`. -/
def findTableByName (fuel : Nat) (st : PagerState) (name : ByteStr) : FRes TableMeta :=
  (loadCatalogRoot st).bind fun root =>
    findLoop fuel st root.catalogRootPageId name

/-- `Pager::add_column`: resolve the table by name, load the root, build
the TableColumn with `column_id = next_column_id` and the resolved
table_id, chain-insert it, then increment the counter and persist. -/
def addColumn (fuel : Nat) (st : PagerState) (tableName : ByteStr)
    (dataType : TableColumnR) : FRes (TableColumnR × PagerState) :=
  (findTableByName fuel st tableName).bind fun table =>
    (loadCatalogRoot st).bind fun root =>
      let column : TableColumnR :=
        { columnId := root.nextColumnId, tableId := table.tableId,
          name := dataType.name }
      (chainInsert fuel st root.catalogRootPageId
          (recordEncode .catalogColumn column.serialize)).bind fun st1 =>
        (persistCatalogRoot st1
            { root with nextColumnId := root.nextColumnId + 1 }).bind
          fun st2 => .ok (column, st2)

/-! ### The in-memory catalog (general/catalog.rs) and `Pager::load_catalog` -/

/-- HashMap insert (replace the existing key or add the pair). -/
def aput {α β : Type} [DecidableEq α] (k : α) (v : β) :
    List (α × β) → List (α × β)
  | [] => [(k, v)]
  | (k1, v1) :: rest => if k1 = k then (k, v) :: rest else (k1, v1) :: aput k v rest

/-- HashMap lookup. -/
def alookup {α β : Type} [DecidableEq α] (k : α) : List (α × β) → Option β
  | [] => none
  | (k1, v1) :: rest => if k1 = k then some v1 else alookup k rest

/-- `map.entry(k).or_default().push(v)`. -/
def apush {α β : Type} [DecidableEq α] (k : α) (v : β) :
    List (α × List β) → List (α × List β)
  | [] => [(k, [v])]
  | (k1, vs) :: rest =>
    if k1 = k then (k1, vs ++ [v]) :: rest else (k1, vs) :: apush k v rest

/-- The in-memory `Catalog`: the three indices. -/
structure Catalog where
  tablesById : List (Nat × TableMeta)
  tablesByName : List (ByteStr × Nat)
  columnsByTable : List (Nat × List TableColumnR)
  deriving DecidableEq

/-- The index-building tail of `Pager::load_catalog`: one pass inserting
every table into `tables_by_name` and `tables_by_id` (the two maps are
independent, so the single source loop is two folds here), then one pass
pushing every column onto its table's entry. -/
def buildCatalog (tables : List TableMeta) (cols : List TableColumnR) : Catalog :=
  { tablesById := tables.foldl (fun m t => aput t.tableId t m) [],
    tablesByName := tables.foldl (fun m t => aput t.name t.tableId m) [],
    columnsByTable := cols.foldl (fun m c => apush c.tableId c m) [] }

/-- The slot scan of one page in `Pager::load_catalog`: accumulate
CatalogTable records into `tables` and CatalogColumn records into `cols`,
fail with InvalidData on a CatalogRoot record, ignore the other tags. -/
def collectRecords : List (List Nat) → List TableMeta → List TableColumnR →
    FRes (List TableMeta × List TableColumnR)
  | [], ts, cs => .ok (ts, cs)
  | raw :: rest, ts, cs =>
    match recordDecodeR raw with
    | none => .panicked
    | some (rt, payload) =>
      match rt with
      | .catalogTable =>
        match TableMeta.deserialize payload with
        | .ok t => collectRecords rest (ts ++ [t]) cs
        | .err => .err .invalidData
        | .panicked => .panicked
      | .catalogColumn =>
        match TableColumnR.deserialize payload with
        | .ok c => collectRecords rest ts (cs ++ [c])
        | .err => .err .invalidData
        | .panicked => .panicked
      | .catalogRoot => .err .invalidData
      | _ => collectRecords rest ts cs

/-- The page loop of `Pager::load_catalog`. -/
def collectLoop : Nat → PagerState → Nat → List TableMeta → List TableColumnR →
    FRes (List TableMeta × List TableColumnR)
  | 0, _, _, _, _ => .noFuel
  | fuel + 1, st, pid, ts, cs =>
    if pid = 0 then .ok (ts, cs)
    else
      (readPage st pid).bind fun page =>
        (collectRecords page.records ts cs).bind fun acc =>
          collectLoop fuel st page.nextPageId acc.1 acc.2

/-- `Pager::load_catalog`: load the root, reject a zero heap root id with
InvalidData, walk the chain accumulating records, build the indices. -/
def loadCatalog (fuel : Nat) (st : PagerState) : FRes Catalog :=
  (loadCatalogRoot st).bind fun root =>
    if root.catalogRootPageId = 0 then .err .invalidData
    else
      (collectLoop fuel st root.catalogRootPageId [] []).bind fun acc =>
        .ok (buildCatalog acc.1 acc.2)

/-! ### The database facade (general/database.rs) -/

/-- `Database`: the pager plus the cached catalog. -/
structure Database where
  pager : PagerState
  catalog : Catalog
  deriving DecidableEq

/-- `Database::add_column`: resolve the table id from the cached name
index (NotFound if absent), delegate to `Pager::add_column`, then push the
returned column onto `columns_by_table`.  (engine/database.rs is the same
function modulo passing the column type through.) -/
def dbAddColumn (fuel : Nat) (db : Database) (tableName : ByteStr)
    (column : TableColumnR) : FRes Database :=
  match alookup tableName db.catalog.tablesByName with
  | none => .err .notFound
  | some tid =>
    (addColumn fuel db.pager tableName column).bind fun res =>
      .ok { pager := res.2,
            catalog := { db.catalog with
              columnsByTable := apush tid res.1 db.catalog.columnsByTable } }

/-! ### Specification-side helpers (chain walking and record views) -/

/-- The chain reached from `pid` by following `next_page_id` until the 0
sentinel: the visited (page id, page) pairs in order. -/
def walkChain : Nat → PagerState → Nat → FRes (List (Nat × PPage))
  | 0, _, _ => .noFuel
  | fuel + 1, st, pid =>
    if pid = 0 then .ok []
    else
      (readPage st pid).bind fun page =>
        (walkChain fuel st page.nextPageId).bind fun rest =>
          .ok ((pid, page) :: rest)

/-- The pages of a chain, in chain order. -/
def chainPages (l : List (Nat × PPage)) : List PPage := l.map Prod.snd

/-- Does the record fit the page (the `insert_record` free-space test)? -/
def fits (p : PPage) (bytes : List Nat) : Prop :=
  p.freeStart + bytes.length + SLOT_SIZE ≤ p.freeEnd

instance (p : PPage) (bytes : List Nat) : Decidable (fits p bytes) := by
  unfold fits
  infer_instance

/-- All record byte strings of a page list, in slot order page by page. -/
def pagesRecords (pages : List PPage) : List (List Nat) :=
  (pages.map PPage.records).flatten

/-- The CatalogTable records among `recs` that deserialize, in order. -/
def tablesOfRecs (recs : List (List Nat)) : List TableMeta :=
  recs.filterMap fun raw =>
    match recordDecodeR raw with
    | some (.catalogTable, p) =>
      match TableMeta.deserialize p with
      | .ok t => some t
      | _ => none
    | _ => none

/-- The CatalogColumn records among `recs` that deserialize, in order. -/
def colsOfRecs (recs : List (List Nat)) : List TableColumnR :=
  recs.filterMap fun raw =>
    match recordDecodeR raw with
    | some (.catalogColumn, p) =>
      match TableColumnR.deserialize p with
      | .ok c => some c
      | _ => none
    | _ => none

/-- Does some record of `recs` carry the CatalogRoot tag? -/
def hasRootRec (recs : List (List Nat)) : Bool :=
  recs.any fun raw =>
    match recordDecodeR raw with
    | some (.catalogRoot, _) => true
    | _ => false

/-- A record the catalog loader consumes without error or panic: it
decodes, and if tagged CatalogTable/CatalogColumn it deserializes cleanly
and is not a CatalogRoot. -/
def recWellFormed (raw : List Nat) : Bool :=
  match recordDecodeR raw with
  | none => false
  | some (rt, p) =>
    match rt with
    | .catalogRoot => true
    | .catalogTable =>
      match TableMeta.deserialize p with
      | .ok _ => true
      | _ => false
    | .catalogColumn =>
      match TableColumnR.deserialize p with
      | .ok _ => true
      | _ => false
    | _ => true

/-! ### Operation sequences (for the id-monotonicity property) -/

/-- A catalog mutation: `create_table(name)` or
`add_column(table, column)`. -/
inductive Op
  | mkTable (name : ByteStr)
  | mkColumn (table : ByteStr) (col : TableColumnR)
  deriving DecidableEq

/-- Run a sequence of catalog mutations, returning the assigned table ids
and column ids in call order. -/
def runOps (fuel : Nat) : PagerState → List Op → FRes (List Nat × List Nat × PagerState)
  | st, [] => .ok ([], [], st)
  | st, .mkTable name :: ops =>
    (createTable fuel st name).bind fun r =>
      (runOps fuel r.2 ops).bind fun acc =>
        .ok (r.1.tableId :: acc.1, acc.2.1, acc.2.2)
  | st, .mkColumn tbl col :: ops =>
    (addColumn fuel st tbl col).bind fun r =>
      (runOps fuel r.2 ops).bind fun acc =>
        .ok (acc.1, r.1.columnId :: acc.2.1, acc.2.2)

/-- A CatalogRoot reduced to its stored (u16/u32-truncated) form: what a
persist followed by a reload yields. -/
def CatalogRoot.stored (r : CatalogRoot) : CatalogRoot :=
  ⟨r.version % 65536, r.nextTableId % 4294967296, r.nextColumnId % 4294967296,
   r.catalogRootPageId % 4294967296⟩

/-! ### Insert sequences on the byte-level page -/

/-- Run a sequence of `insert_record` calls on a heap-page buffer,
requiring every one of them to succeed. -/
def applyInserts : List (List Nat) → List Nat → Option (List Nat)
  | [], buf => some buf
  | r :: rs, buf =>
    match insertHeapRecord buf r with
    | .ok b => applyInserts rs b
    | _ => none

/-! ### Concrete inputs used by the counterexamples and witnesses -/

/-- A 16-byte file whose magic bytes are all zero. -/
def hdrBadMagicFile : List Nat := List.replicate 16 0

/-- Valid magic followed by a `header_size` of 0. -/
def hdrBadSizeFile : List Nat := DB_MAGIC ++ [0, 0]

/-- A fully valid 128-byte header image with the checksum flag clear. -/
def hdrOkFile : List Nat :=
  DB_MAGIC ++ toLE 2 128 ++ toLE 2 4096 ++ toLE 4 1 ++ [1] ++ [1] ++ toLE 2 0 ++
    toLE 8 0 ++ toLE 8 0 ++ toLE 4 0 ++ toLE 4 0 ++ List.replicate 76 0

/-- The header `hdrOkFile` parses to. -/
def hdrOkExpected : Header :=
  { magic := DB_MAGIC, headerSize := 128, pageSize := 4096, dbVersion := 1,
    writeVersion := 1, readVersion := 1, flags := 0, createdAt := 0,
    pageCount := 0, checksum := 0, chunkCatalogRootPageId := 0,
    reserved := List.replicate 76 0 }

/-- The empty string. -/
def nameEmpty : ByteStr := ⟨[], rfl⟩

/-- The string "a". -/
def nameA : ByteStr := ⟨[97], rfl⟩

/-- The string "b". -/
def nameB : ByteStr := ⟨[98], rfl⟩

/-- The string "users". -/
def nameUsers : ByteStr := ⟨[117, 115, 101, 114, 115], rfl⟩

/-- The string "id". -/
def nameId : ByteStr := ⟨[105, 100], rfl⟩

/-- A fresh 64-byte heap page buffer. -/
def page64 : List Nat := (pageNew 64 PageType.heapPage 0).getD []

/-- A 64-byte buffer in the old page layout: header at offset 0 with
page_type 3 (catalog), slot_count 0, free_start 32, free_end 64. -/
def oldPage64 : List Nat := oldHeaderBytes ⟨3, 0, 32, 64, 0⟩ ++ List.replicate 52 0

/-- A record of 65532 bytes: `65532 + SLOT_SIZE` overflows u16. -/
def c4BigRecord : List Nat := List.replicate 65532 0

/-- A fresh 34-byte heap page: 4 free bytes, room for nothing. -/
def fullPage34 : List Nat := (pageNew 34 PageType.heapPage 0).getD []

/-- The encoded record of table `users` with id 1. -/
def tblRecUsers : List Nat := recordEncode .catalogTable (TableMeta.serialize ⟨1, nameUsers⟩)

/-- The encoded record of column `id` (column_id 1) of table 1. -/
def colRecId1 : List Nat := recordEncode .catalogColumn (TableColumnR.serialize ⟨1, 1, nameId⟩)

/-- An open database (page size 128) holding table `users` with one column
`id`, catalog cache in sync with the heap. -/
def dbDup : Database :=
  { pager :=
      ⟨128, [⟨.catalogPage, 0, 0, 45, 124,
               [recordEncode .catalogRoot (CatalogRoot.serialize ⟨1, 2, 2, 1⟩)]⟩,
             ⟨.catalogPage, 1, 0, 51, 120, [tblRecUsers, colRecId1]⟩]⟩,
    catalog :=
      { tablesById := [(1, ⟨1, nameUsers⟩)], tablesByName := [(nameUsers, 1)],
        columnsByTable := [(1, [⟨1, 1, nameId⟩])] } }

/-- The column list of table 1 after re-adding the existing column `id`. -/
def c3ColsAfter : Option (List TableColumnR) :=
  match dbAddColumn 9 dbDup nameUsers ⟨0, 0, nameId⟩ with
  | .ok db2 => alookup 1 db2.catalog.columnsByTable
  | _ => none

/-- A pager state whose CatalogRoot has `next_table_id = u32::MAX`. -/
def stWrap : PagerState :=
  ⟨64, [⟨.catalogPage, 0, 0, 45, 60,
          [recordEncode .catalogRoot (CatalogRoot.serialize ⟨1, 4294967295, 1, 1⟩)]⟩,
        ⟨.catalogPage, 1, 0, 30, 64, []⟩]⟩

/-- The table ids assigned by two consecutive `create_table` calls. -/
def createIdsTwice (st : PagerState) : Option (Nat × Nat) :=
  match createTable 9 st nameA with
  | .ok r1 =>
    match createTable 9 r1.2 nameB with
    | .ok r2 => some (r1.1.tableId, r2.1.tableId)
    | _ => none
  | _ => none

/-- A freshly initialized database file (page size 64): page 0 holds the
CatalogRoot with both counters at 1, page 1 is the empty heap root. -/
def stInit : PagerState :=
  ⟨64, [⟨.catalogPage, 0, 0, 45, 60,
          [recordEncode .catalogRoot (CatalogRoot.serialize ⟨1, 1, 1, 1⟩)]⟩,
        ⟨.catalogPage, 1, 0, 30, 64, []⟩]⟩

/-- A pager state already holding table `users` (id 1). -/
def stDup9 : PagerState :=
  ⟨64, [⟨.catalogPage, 0, 0, 45, 60,
          [recordEncode .catalogRoot (CatalogRoot.serialize ⟨1, 2, 1, 1⟩)]⟩,
        ⟨.catalogPage, 1, 0, 40, 60, [tblRecUsers]⟩]⟩

/-- Two `create_table` and two `add_column` calls, interleaved. -/
def c7ops : List Op :=
  [.mkTable nameA, .mkColumn nameA ⟨0, 0, nameId⟩,
   .mkTable nameB, .mkColumn nameB ⟨0, 0, nameId⟩]

/-- The table ids assigned by running `c7ops` on the fresh database. -/
def c7tids : List Nat :=
  match runOps 9 stInit c7ops with
  | .ok r => r.1
  | _ => []

/-- The column ids assigned by running `c7ops` on the fresh database. -/
def c7cids : List Nat :=
  match runOps 9 stInit c7ops with
  | .ok r => r.2.1
  | _ => []

/-- The pager state after running `c7ops` on the fresh database. -/
def c7stf : PagerState :=
  match runOps 9 stInit c7ops with
  | .ok r => r.2.2
  | _ => ⟨0, []⟩

/-- The database after re-adding the existing column `id` to `users`. -/
def c3dbAfter : Database :=
  match dbAddColumn 9 dbDup nameUsers ⟨0, 0, nameId⟩ with
  | .ok db2 => db2
  | _ => ⟨⟨0, []⟩, ⟨[], [], []⟩⟩

/-- The heap chain of `stDup9`, as visited by `load_catalog`. -/
def c8chain : List (Nat × PPage) :=
  match walkChain 9 stDup9 1 with
  | .ok c => c
  | _ => []

/-- The pager state after `create_table(users)` on `stDup9`, which
already holds a table named `users`. -/
def c9st2 : PagerState :=
  match createTable 9 stDup9 nameUsers with
  | .ok r => r.2
  | _ => ⟨0, []⟩

/-- The heap chain of `c9st2`: page 1 now holds two `users` records. -/
def c9chain2 : List (Nat × PPage) :=
  match walkChain 9 c9st2 1 with
  | .ok c => c
  | _ => []

end FluxDb

namespace FluxDb

/-! ## Theorems.  Infrastructure lemmas first, then the claim theorems. -/

/-! ### Byte-buffer lemmas -/

@[simp] theorem length_toLE (w v : Nat) : (toLE w v).length = w := by
  induction w generalizing v with
  | zero => rfl
  | succ w ih => simp [toLE, ih]

theorem fromLE_toLE (w v : Nat) : fromLE (toLE w v) = v % 256 ^ w := by
  induction w generalizing v with
  | zero => simp [toLE, fromLE, Nat.mod_one]
  | succ w ih =>
    have hmul : (256 : Nat) ^ (w + 1) = 256 * 256 ^ w := by ring
    rw [toLE, fromLE, ih, hmul, Nat.mod_mul]

theorem fromLE_toLE_of_lt {w v : Nat} (h : v < 256 ^ w) :
    fromLE (toLE w v) = v := by
  rw [fromLE_toLE, Nat.mod_eq_of_lt h]

theorem writeAt_some {buf : List Nat} {off : Nat} {bs : List Nat}
    (h : off + bs.length ≤ buf.length) :
    writeAt buf off bs = some (buf.take off ++ bs ++ buf.drop (off + bs.length)) := by
  simp [writeAt, h]

theorem length_writeAt {buf : List Nat} {off : Nat} {bs out : List Nat}
    (h : writeAt buf off bs = some out) : out.length = buf.length := by
  by_cases hle : off + bs.length ≤ buf.length
  · rw [writeAt_some hle] at h
    cases h
    simp
    omega
  · simp [writeAt, hle] at h

theorem writeAt_bound {buf : List Nat} {off : Nat} {bs out : List Nat}
    (h : writeAt buf off bs = some out) : off + bs.length ≤ buf.length := by
  by_cases hle : off + bs.length ≤ buf.length
  · exact hle
  · simp [writeAt, hle] at h

theorem readAt_some {buf : List Nat} {off len : Nat}
    (h : off + len ≤ buf.length) :
    readAt buf off len = some ((buf.drop off).take len) := by
  simp [readAt, h]

/-- Pointwise description of the buffer after a successful write. -/
theorem writeAt_getElem {buf : List Nat} {off : Nat} {bs out : List Nat}
    (h : writeAt buf off bs = some out) (j : Nat) :
    out[j]? = if off ≤ j ∧ j < off + bs.length then bs[j - off]? else buf[j]? := by
  have hle := writeAt_bound h
  rw [writeAt_some hle] at h
  cases h
  have htk : (buf.take off).length = off := by simp; omega
  rw [List.append_assoc, List.getElem?_append, htk]
  by_cases hj1 : j < off
  · simp only [hj1, if_pos]
    rw [List.getElem?_take, if_pos hj1]
    simp only [if_neg (by omega : ¬ (off ≤ j ∧ j < off + bs.length))]
  · simp only [hj1, if_neg, if_false]
    rw [List.getElem?_append]
    by_cases hj2 : j < off + bs.length
    · rw [if_pos (by omega), if_pos (by omega)]
    · rw [if_neg (by omega), if_neg (by omega)]
      rw [List.getElem?_drop]
      congr 1
      omega

/-- Reading the freshly written range gives the written bytes back. -/
theorem readAt_writeAt_self {buf : List Nat} {off : Nat} {bs out : List Nat}
    (h : writeAt buf off bs = some out) :
    readAt out off bs.length = some bs := by
  have hle := writeAt_bound h
  have hlen := length_writeAt h
  rw [readAt_some (by omega)]
  congr 1
  refine List.ext_getElem? (fun i => ?_)
  rw [List.getElem?_take]
  by_cases hi : i < bs.length
  · rw [if_pos hi, List.getElem?_drop, writeAt_getElem h, if_pos (by omega)]
    congr 1
    omega
  · rw [if_neg hi, eq_comm, List.getElem?_eq_none]
    omega

/-- A read outside the written range is unchanged. -/
theorem readAt_writeAt_disjoint {buf : List Nat} {off : Nat} {bs out : List Nat}
    (h : writeAt buf off bs = some out) {off2 len2 : Nat}
    (hdisj : off2 + len2 ≤ off ∨ off + bs.length ≤ off2) :
    readAt out off2 len2 = readAt buf off2 len2 := by
  have hle := writeAt_bound h
  have hlen := length_writeAt h
  by_cases hin : off2 + len2 ≤ buf.length
  · rw [readAt_some (by omega), readAt_some hin]
    congr 1
    refine List.ext_getElem? (fun i => ?_)
    rw [List.getElem?_take, List.getElem?_take]
    by_cases hi : i < len2
    · rw [if_pos hi, if_pos hi, List.getElem?_drop, List.getElem?_drop,
        writeAt_getElem h, if_neg (by omega)]
    · rw [if_neg hi, if_neg hi]
  · rw [readAt, readAt, hlen]
    simp [hin]

/-- Reading an initial segment of a concatenation. -/
theorem readAt_first (l m : List Nat) : readAt (l ++ m) 0 l.length = some l := by
  rw [readAt_some (by simp)]
  simp

/-- Reading past an initial segment of a concatenation. -/
theorem readAt_shift (l m : List Nat) (off len : Nat) :
    readAt (l ++ m) (l.length + off) len = readAt m off len := by
  unfold readAt
  have hdrop : (l ++ m).drop (l.length + off) = m.drop off := by
    rw [List.drop_append_eq_append_drop]
    simp
  by_cases hc : off + len ≤ m.length
  · rw [if_pos (by simp; omega), if_pos hc, hdrop]
  · rw [if_neg (by simp; omega), if_neg hc]

/-- Dropping an initial segment of a concatenation. -/
theorem drop_shift (l m : List Nat) (off : Nat) :
    (l ++ m).drop (l.length + off) = m.drop off := by
  rw [List.drop_append_eq_append_drop]
  simp

end FluxDb

namespace FluxDb

/-! ### Codec round-trip lemmas -/

theorem columnType_fromU8_tag (ct : ColumnType) : ColumnType.fromU8 ct.tag = some ct := by
  cases ct <;> rfl

theorem catalogRoot_roundtrip (r : CatalogRoot) :
    CatalogRoot.deserialize (CatalogRoot.serialize r) =
      .ok { version := r.version % 65536, nextTableId := r.nextTableId % 4294967296,
            nextColumnId := r.nextColumnId % 4294967296,
            catalogRootPageId := r.catalogRootPageId % 4294967296 } := by
  simp [CatalogRoot.serialize, CatalogRoot.deserialize, toLE, readAt, fromLE]
  refine ⟨?_, ?_, ?_, ?_⟩ <;> omega

theorem tableMeta_roundtrip (t : TableMeta) :
    TableMeta.deserialize (TableMeta.serialize t) =
      .ok { tableId := t.tableId % 4294967296, name := t.name } := by
  obtain ⟨id, ⟨nb, hv⟩⟩ := t
  have hdrop : (toLE 4 id ++ nb).drop 4 = nb := by
    have := drop_shift (toLE 4 id) nb 0
    simpa using this
  have hread : readAt (toLE 4 id ++ nb) 0 4 = some (toLE 4 id) := by
    have := readAt_first (toLE 4 id) nb
    simpa using this
  simp only [TableMeta.serialize, TableMeta.deserialize, hread, hdrop]
  rw [dif_pos hv]
  simp [toLE, fromLE]
  omega

theorem tableColumn_roundtrip (c : TableColumn) :
    TableColumn.deserialize (TableColumn.serialize c) =
      .ok { tableId := c.tableId % 4294967296, columnId := c.columnId % 4294967296,
            columnType := c.columnType, name := c.name } := by
  obtain ⟨tid, cid, ct, ⟨nb, hv⟩⟩ := c
  have hra : toLE 4 tid ++ toLE 4 cid ++ [ct.tag] ++ nb =
      toLE 4 tid ++ (toLE 4 cid ++ ([ct.tag] ++ nb)) := by
    simp [List.append_assoc]
  have h1 : readAt (toLE 4 tid ++ toLE 4 cid ++ [ct.tag] ++ nb) 0 4 = some (toLE 4 tid) := by
    rw [hra]
    have := readAt_first (toLE 4 tid) (toLE 4 cid ++ ([ct.tag] ++ nb))
    simpa using this
  have h2 : readAt (toLE 4 tid ++ toLE 4 cid ++ [ct.tag] ++ nb) 4 4 = some (toLE 4 cid) := by
    rw [hra]
    have hs := readAt_shift (toLE 4 tid) (toLE 4 cid ++ ([ct.tag] ++ nb)) 0 4
    have hf := readAt_first (toLE 4 cid) ([ct.tag] ++ nb)
    simp only [length_toLE] at hs hf
    rw [show (4 : Nat) = 4 + 0 from rfl, hs]
    simpa using hf
  have h3 : readAt (toLE 4 tid ++ toLE 4 cid ++ [ct.tag] ++ nb) 8 1 = some [ct.tag] := by
    rw [hra]
    have hs := readAt_shift (toLE 4 tid) (toLE 4 cid ++ ([ct.tag] ++ nb)) 4 1
    have hs2 := readAt_shift (toLE 4 cid) ([ct.tag] ++ nb) 0 1
    have hf := readAt_first [ct.tag] nb
    simp only [length_toLE, List.length_cons, List.length_nil] at hs hs2 hf
    rw [show (8 : Nat) = 4 + 4 from rfl, hs, show (4 : Nat) = 4 + 0 from rfl, hs2]
    simpa using hf
  have hdrop : (toLE 4 tid ++ toLE 4 cid ++ [ct.tag] ++ nb).drop 9 = nb := by
    have := drop_shift (toLE 4 tid ++ toLE 4 cid ++ [ct.tag]) nb 0
    simpa using this
  simp only [TableColumn.serialize, TableColumn.deserialize, h1, h2, h3, hdrop]
  rw [dif_pos hv]
  have hct : fromLE [ct.tag] = ct.tag := by simp [fromLE]
  rw [hct, columnType_fromU8_tag]
  simp [toLE, fromLE]
  constructor <;> omega

theorem tableColumnR_roundtrip (c : TableColumnR) :
    TableColumnR.deserialize (TableColumnR.serialize c) =
      .ok { tableId := c.tableId % 4294967296, columnId := c.columnId % 4294967296,
            name := c.name } := by
  obtain ⟨tid, cid, ⟨nb, hv⟩⟩ := c
  have hra : toLE 4 tid ++ toLE 4 cid ++ nb = toLE 4 tid ++ (toLE 4 cid ++ nb) := by
    simp [List.append_assoc]
  have h1 : readAt (toLE 4 tid ++ toLE 4 cid ++ nb) 0 4 = some (toLE 4 tid) := by
    rw [hra]
    have := readAt_first (toLE 4 tid) (toLE 4 cid ++ nb)
    simpa using this
  have h2 : readAt (toLE 4 tid ++ toLE 4 cid ++ nb) 4 4 = some (toLE 4 cid) := by
    rw [hra]
    have hs := readAt_shift (toLE 4 tid) (toLE 4 cid ++ nb) 0 4
    have hf := readAt_first (toLE 4 cid) nb
    simp only [length_toLE] at hs hf
    rw [show (4 : Nat) = 4 + 0 from rfl, hs]
    simpa using hf
  have hdrop : (toLE 4 tid ++ toLE 4 cid ++ nb).drop 8 = nb := by
    have := drop_shift (toLE 4 tid ++ toLE 4 cid) nb 0
    simpa using this
  simp only [TableColumnR.serialize, TableColumnR.deserialize, h1, h2, hdrop]
  rw [dif_pos hv]
  simp [toLE, fromLE]
  constructor <;> omega

/-! ### Claim theorems: C1, C2, C6 -/

/-- Claim C1 (code bug): `Header::read_from` does seek to 0, deserialize
the fixed fields and reject corrupted inputs, but on a magic mismatch or a
header-size mismatch it panics (`panic!("Invalid DB magic header")`,
`panic!("Unsupported header size")`, both under TODO comments) instead of
returning a recoverable FormatError, and on a checksum mismatch it panics
instead of returning an IntegrityError.  The conjuncts: corrupted magic
panics; corrupted header size panics; every successfully returned header
really carries valid magic and size and (when the checksum flag is set) a
matching CRC-32, so no half-initialized header is ever produced. -/
theorem c1_header_read_rejects_but_panics :
    headerReadFrom hdrBadMagicFile = HRead.panicked HFailure.badMagic ∧
    headerReadFrom hdrBadSizeFile = HRead.panicked HFailure.badSize ∧
    (∀ (file : List Nat) (h : Header), headerReadFrom file = HRead.ok h →
      h.magic = DB_MAGIC ∧ h.headerSize = DB_HEADER_SIZE ∧
      (h.flags % 2 = 1 → computeChecksum h = h.checksum)) := by
  refine ⟨by decide, by decide, fun file h hok => ?_⟩
  simp only [headerReadFrom] at hok
  repeat' split at hok
  all_goals try (cases hok)
  all_goals simp_all [DB_HEADER_SIZE]

set_option maxRecDepth 100000 in
/-- Witness for C1: a concrete valid header image parses successfully and
the validation facts hold for it. -/
theorem c1_header_read_witness :
    headerReadFrom hdrOkFile = HRead.ok hdrOkExpected ∧
    (hdrOkExpected.magic = DB_MAGIC ∧ hdrOkExpected.headerSize = DB_HEADER_SIZE ∧
      (hdrOkExpected.flags % 2 = 1 → computeChecksum hdrOkExpected = hdrOkExpected.checksum)) :=
  ⟨by decide, c1_header_read_rejects_but_panics.2.2 hdrOkFile hdrOkExpected (by decide)⟩

/-- Claim C2 (code bug): the wire table says tag 3 is ChunkMeta and
malformed tags must fail with InvalidData, and indeed the enum declares
`ChunkMeta = 3`; but `RecordType::from_u8` decodes tag 3 to CatalogColumn
and decodes every unreserved tag (e.g. 42) to CatalogTable instead of
failing.  Tags 0, 1, 2, 10, 20 decode according to the table, and only the
empty buffer makes `Record::decode` fail. -/
theorem c2_tag_three_and_malformed_tags_misdecoded :
    RecordType.tag RecordType.chunkMeta = 3 ∧
    recordDecode [3] = some (RecordType.catalogColumn, []) ∧
    recordDecode [42] = some (RecordType.catalogTable, []) ∧
    recordDecode [0] = some (RecordType.catalogRoot, []) ∧
    recordDecode [1] = some (RecordType.catalogTable, []) ∧
    recordDecode [2] = some (RecordType.catalogColumn, []) ∧
    recordDecode [10] = some (RecordType.heapRow, []) ∧
    recordDecode [20] = some (RecordType.indexEntry, []) ∧
    recordDecode [] = none := by
  decide

/-- Claim C6 (confirmed): `deserialize (serialize x) = x` for CatalogRoot,
TableMeta and TableColumn, for every in-range field value and every name
(empty and maximal alike — the name is unbounded in the embedding). -/
theorem c6_record_roundtrip :
    (∀ r : CatalogRoot, r.version < 65536 → r.nextTableId < 4294967296 →
      r.nextColumnId < 4294967296 → r.catalogRootPageId < 4294967296 →
      CatalogRoot.deserialize (CatalogRoot.serialize r) = .ok r) ∧
    (∀ t : TableMeta, t.tableId < 4294967296 →
      TableMeta.deserialize (TableMeta.serialize t) = .ok t) ∧
    (∀ c : TableColumn, c.tableId < 4294967296 → c.columnId < 4294967296 →
      TableColumn.deserialize (TableColumn.serialize c) = .ok c) := by
  refine ⟨fun r h1 h2 h3 h4 => ?_, fun t h1 => ?_, fun c h1 h2 => ?_⟩
  · rw [catalogRoot_roundtrip]
    congr 1
    cases r
    simp_all [Nat.mod_eq_of_lt]
  · rw [tableMeta_roundtrip]
    congr 1
    cases t
    simp_all [Nat.mod_eq_of_lt]
  · rw [tableColumn_roundtrip]
    congr 1
    cases c
    simp_all [Nat.mod_eq_of_lt]

/-- Witness for C6: concrete round trips, with an empty name and a
multi-byte name. -/
theorem c6_record_roundtrip_witness :
    CatalogRoot.deserialize (CatalogRoot.serialize ⟨1, 2, 3, 4⟩) = .ok ⟨1, 2, 3, 4⟩ ∧
    TableMeta.deserialize (TableMeta.serialize ⟨7, nameEmpty⟩) = .ok ⟨7, nameEmpty⟩ ∧
    TableMeta.deserialize (TableMeta.serialize ⟨8, nameUsers⟩) = .ok ⟨8, nameUsers⟩ ∧
    TableColumn.deserialize (TableColumn.serialize ⟨1, 2, .utf8, nameId⟩) =
      .ok ⟨1, 2, .utf8, nameId⟩ :=
  ⟨c6_record_roundtrip.1 ⟨1, 2, 3, 4⟩ (by decide) (by decide) (by decide) (by decide),
   c6_record_roundtrip.2.1 ⟨7, nameEmpty⟩ (by decide),
   c6_record_roundtrip.2.1 ⟨8, nameUsers⟩ (by decide),
   c6_record_roundtrip.2.2 ⟨1, 2, .utf8, nameId⟩ (by decide) (by decide)⟩

end FluxDb

namespace FluxDb

/-! ### Byte-level heap page lemmas -/

theorem readHeapHeader_of_bytes {buf : List Nat} {l : HeapLayout}
    (h : readAt buf 24 6 = some (heapHeaderBytes l)) :
    readHeapHeader buf =
      some ⟨l.slotCount % 65536, l.freeStart % 65536, l.freeEnd % 65536⟩ := by
  unfold readHeapHeader PAGE_HEADER_SIZE HEAP_HEADER_SIZE
  rw [h]
  simp [heapHeaderBytes, toLE, fromLE]
  refine ⟨?_, ?_, ?_⟩ <;> omega

theorem length_pageHeaderBytes (t : PageType) (pid : Nat) :
    (pageHeaderBytes t pid).length = 24 := by
  simp [pageHeaderBytes]

theorem length_heapHeaderBytes (l : HeapLayout) : (heapHeaderBytes l).length = 6 := by
  simp [heapHeaderBytes]

theorem pageNew_step {ps pid : Nat} {t : PageType} {b1 buf : List Nat}
    (hw1 : writeAt (List.replicate ps 0) 0 (pageHeaderBytes t pid) = some b1)
    (hw2 : writeAt b1 PAGE_HEADER_SIZE
      (heapHeaderBytes ⟨0, (PAGE_HEADER_SIZE + HEAP_HEADER_SIZE) % 65536, ps % 65536⟩) =
      some buf) :
    30 ≤ ps ∧ buf.length = ps ∧ readHeapHeader buf = some ⟨0, 30, ps % 65536⟩ := by
  have hb1len : b1.length = ps := by
    have := length_writeAt hw1
    simpa using this
  have hbound := writeAt_bound hw2
  rw [length_heapHeaderBytes, hb1len] at hbound
  have h30 : 30 ≤ ps := by
    simp [PAGE_HEADER_SIZE] at hbound
    omega
  refine ⟨h30, ?_, ?_⟩
  · rw [length_writeAt hw2, hb1len]
  · have hself := readAt_writeAt_self hw2
    rw [length_heapHeaderBytes] at hself
    have := @readHeapHeader_of_bytes _
      ⟨0, (PAGE_HEADER_SIZE + HEAP_HEADER_SIZE) % 65536, ps % 65536⟩
      (by simpa [PAGE_HEADER_SIZE, HEAP_HEADER_SIZE] using hself)
    simpa [PAGE_HEADER_SIZE, HEAP_HEADER_SIZE] using this

theorem pageNew_inv {ps pid : Nat} {t : PageType} {buf : List Nat}
    (h : pageNew ps t pid = some buf) :
    30 ≤ ps ∧ buf.length = ps ∧ readHeapHeader buf = some ⟨0, 30, ps % 65536⟩ := by
  unfold pageNew at h
  cases t with
  | heapPage =>
    cases hw1 : writeAt (List.replicate ps 0) 0 (pageHeaderBytes PageType.heapPage pid) with
    | none => rw [hw1] at h; cases h
    | some b1 =>
      rw [hw1] at h
      exact pageNew_step hw1 h
  | catalogPage =>
    cases hw1 : writeAt (List.replicate ps 0) 0 (pageHeaderBytes PageType.catalogPage pid) with
    | none => rw [hw1] at h; cases h
    | some b1 =>
      rw [hw1] at h
      exact pageNew_step hw1 h
  | dataPage => cases h
  | indexPage => cases h

theorem pageNew_build (ps pid : Nat) (h30 : 30 ≤ ps) :
    ∃ buf, pageNew ps PageType.heapPage pid = some buf := by
  unfold pageNew
  obtain ⟨b1, hw1⟩ : ∃ b1,
      writeAt (List.replicate ps 0) 0 (pageHeaderBytes PageType.heapPage pid) = some b1 := by
    refine ⟨_, writeAt_some ?_⟩
    simp [length_pageHeaderBytes]
    omega
  rw [hw1]
  have hb1len : b1.length = ps := by
    have := length_writeAt hw1
    simpa using this
  refine ⟨_, writeAt_some ?_⟩
  rw [length_heapHeaderBytes, hb1len]
  simp [PAGE_HEADER_SIZE]
  omega

end FluxDb
namespace FluxDb

theorem insertHeapRecord_fit {buf rec : List Nat} {l : HeapLayout}
    (hh : readHeapHeader buf = some l)
    (h30 : 30 ≤ l.freeStart) (hfe : l.freeEnd ≤ buf.length) (hlen : buf.length ≤ 65535)
    (hfit : l.freeStart + rec.length + SLOT_SIZE ≤ l.freeEnd) :
    ∃ buf3, insertHeapRecord buf rec = .ok buf3 ∧ buf3.length = buf.length ∧
      readHeapHeader buf3 =
        some ⟨(l.slotCount + 1) % 65536, l.freeStart + rec.length, l.freeEnd - SLOT_SIZE⟩ ∧
      readAt buf3 l.freeStart rec.length = some rec ∧
      readAt buf3 (l.freeEnd - SLOT_SIZE) SLOT_SIZE =
        some (toLE 2 l.freeStart ++ toLE 2 rec.length) := by
  simp only [SLOT_SIZE] at hfit
  have hrl : rec.length % 65536 = rec.length := by
    apply Nat.mod_eq_of_lt
    omega
  have hreq : (rec.length % 65536 + SLOT_SIZE) % 65536 = rec.length + 4 := by
    rw [hrl]
    simp only [SLOT_SIZE]
    apply Nat.mod_eq_of_lt
    omega
  have hfree : (l.freeEnd + 65536 - l.freeStart) % 65536 = l.freeEnd - l.freeStart := by
    rw [show l.freeEnd + 65536 - l.freeStart = 65536 + (l.freeEnd - l.freeStart) by omega]
    rw [Nat.add_mod_left]
    apply Nat.mod_eq_of_lt
    omega
  have hfs : (l.freeStart + rec.length % 65536) % 65536 = l.freeStart + rec.length := by
    rw [hrl]
    apply Nat.mod_eq_of_lt
    omega
  obtain ⟨b1, hw1⟩ : ∃ b1, writeAt buf l.freeStart rec = some b1 :=
    ⟨_, writeAt_some (by omega)⟩
  have hb1len := length_writeAt hw1
  obtain ⟨b2, hw2⟩ : ∃ b2, writeAt b1 (l.freeEnd - SLOT_SIZE)
      (toLE 2 l.freeStart ++ toLE 2 (rec.length % 65536)) = some b2 := by
    refine ⟨_, writeAt_some ?_⟩
    simp only [List.length_append, length_toLE, SLOT_SIZE, hb1len]
    omega
  have hb2len := length_writeAt hw2
  obtain ⟨b3, hw3⟩ : ∃ b3, writeAt b2 PAGE_HEADER_SIZE
      (heapHeaderBytes ⟨(l.slotCount + 1) % 65536,
        (l.freeStart + rec.length % 65536) % 65536, l.freeEnd - SLOT_SIZE⟩) = some b3 := by
    refine ⟨_, writeAt_some ?_⟩
    rw [length_heapHeaderBytes, hb2len, hb1len]
    simp only [PAGE_HEADER_SIZE, SLOT_SIZE]
    omega
  have hb3len := length_writeAt hw3
  have hins : insertHeapRecord buf rec = .ok b3 := by
    unfold insertHeapRecord
    rw [hh]
    simp only [hreq, hfree]
    rw [if_neg (by omega)]
    simp only [hw1]
    rw [if_neg (by simp only [SLOT_SIZE]; omega)]
    simp only [hw2, hw3]
  refine ⟨b3, hins, by omega, ?_, ?_, ?_⟩
  · have hself := readAt_writeAt_self hw3
    rw [length_heapHeaderBytes] at hself
    have hparse := @readHeapHeader_of_bytes _
      ⟨(l.slotCount + 1) % 65536,
        (l.freeStart + rec.length % 65536) % 65536, l.freeEnd - SLOT_SIZE⟩
      (by simpa [PAGE_HEADER_SIZE] using hself)
    rw [hparse]
    congr 2
    · simp
    · simp only [hfs]
      apply Nat.mod_eq_of_lt
      omega
    · simp only [SLOT_SIZE]
      apply Nat.mod_eq_of_lt
      omega
  · have h3 := @readAt_writeAt_disjoint _ _ _ _ hw3 l.freeStart rec.length
      (Or.inr (by rw [length_heapHeaderBytes]; simp only [PAGE_HEADER_SIZE]; omega))
    have h2 := @readAt_writeAt_disjoint _ _ _ _ hw2 l.freeStart rec.length
      (Or.inl (by simp only [List.length_append, length_toLE, SLOT_SIZE]; omega))
    rw [h3, h2]
    exact readAt_writeAt_self hw1
  · have h3 := @readAt_writeAt_disjoint _ _ _ _ hw3 (l.freeEnd - SLOT_SIZE) SLOT_SIZE
      (Or.inr (by rw [length_heapHeaderBytes]; simp only [PAGE_HEADER_SIZE, SLOT_SIZE]; omega))
    rw [h3]
    have hself := readAt_writeAt_self hw2
    simp only [List.length_append, length_toLE, hrl] at hself ⊢
    simpa [SLOT_SIZE] using hself

end FluxDb

namespace FluxDb

theorem insertHeapRecord_ok_inv {buf rec buf3 : List Nat} {l : HeapLayout}
    (hh : readHeapHeader buf = some l)
    (h30 : 30 ≤ l.freeStart) (hfs : l.freeStart ≤ l.freeEnd)
    (hlen : buf.length ≤ 65535)
    (hok : insertHeapRecord buf rec = .ok buf3) :
    l.freeStart + rec.length + SLOT_SIZE ≤ l.freeEnd := by
  unfold insertHeapRecord at hok
  rw [hh] at hok
  simp only [SLOT_SIZE] at hok ⊢
  by_contra hn
  split at hok
  · cases hok
  · rename_i hguard
    split at hok
    · cases hok
    · rename_i b1 hw1
      have hb := writeAt_bound hw1
      have hsmall : rec.length % 65536 = rec.length := by
        apply Nat.mod_eq_of_lt
        omega
      rw [hsmall] at hguard
      have hreq : (rec.length + 4) % 65536 = rec.length + 4 := by
        apply Nat.mod_eq_of_lt
        omega
      rw [hreq] at hguard
      have hfree : (l.freeEnd + 65536 - l.freeStart) % 65536 = l.freeEnd - l.freeStart := by
        rw [show l.freeEnd + 65536 - l.freeStart = 65536 + (l.freeEnd - l.freeStart) by omega]
        rw [Nat.add_mod_left]
        apply Nat.mod_eq_of_lt
        omega
      rw [hfree] at hguard
      omega

theorem insertHeapRecord_errFull {buf rec : List Nat} {l : HeapLayout}
    (hh : readHeapHeader buf = some l)
    (hfs : l.freeStart ≤ l.freeEnd) (hfe : l.freeEnd ≤ buf.length)
    (hlen : buf.length ≤ 65535) (hrb : rec.length + SLOT_SIZE ≤ 65535)
    (hnofit : l.freeEnd - l.freeStart < rec.length + SLOT_SIZE) :
    insertHeapRecord buf rec = .errFull buf := by
  unfold insertHeapRecord
  rw [hh]
  simp only [SLOT_SIZE] at hrb hnofit ⊢
  have hsmall : rec.length % 65536 = rec.length := by
    apply Nat.mod_eq_of_lt
    omega
  rw [hsmall]
  have hreq : (rec.length + 4) % 65536 = rec.length + 4 := by
    apply Nat.mod_eq_of_lt
    omega
  rw [hreq]
  have hfree : (l.freeEnd + 65536 - l.freeStart) % 65536 = l.freeEnd - l.freeStart := by
    rw [show l.freeEnd + 65536 - l.freeStart = 65536 + (l.freeEnd - l.freeStart) by omega]
    rw [Nat.add_mod_left]
    apply Nat.mod_eq_of_lt
    omega
  rw [hfree]
  rw [if_pos (by omega)]

/-- Only the free-space failure produces `errFull`, and it carries the
buffer untouched. -/
theorem insertHeapRecord_errFull_inv {buf rec out : List Nat}
    (h : insertHeapRecord buf rec = .errFull out) : out = buf := by
  unfold insertHeapRecord at h
  cases hrh : readHeapHeader buf with
  | none => rw [hrh] at h; cases h
  | some l =>
    rw [hrh] at h
    simp only at h
    split at h
    · cases h
      rfl
    · split at h
      · cases h
      · split at h
        · cases h
        · split at h
          · cases h
          · split at h
            · cases h
            · cases h

end FluxDb
namespace FluxDb

set_option maxRecDepth 4000 in
theorem oldInsertRecord_fit {buf rec : List Nat} {h : OldHeader}
    (hh : oldReadHeader buf = some h) (hsc : h.slotCount < 65536)
    (hfe : h.freeEnd ≤ buf.length) (hlen : buf.length ≤ 65535)
    (hfit : h.freeStart + rec.length + SLOT_SIZE ≤ h.freeEnd) :
    ∃ buf3, oldInsertRecord buf rec = .ok h.slotCount buf3 := by
  have h32 : 32 ≤ buf.length := by
    unfold oldReadHeader at hh
    split at hh
    · cases hh
    · omega
  simp only [SLOT_SIZE] at hfit
  have hsmall : rec.length % 65536 = rec.length := Nat.mod_eq_of_lt (by omega)
  have hreq : (rec.length + 4) % 65536 = rec.length + 4 := Nat.mod_eq_of_lt (by omega)
  have havail : (h.freeEnd + 65536 - h.freeStart) % 65536 = h.freeEnd - h.freeStart := by
    rw [show h.freeEnd + 65536 - h.freeStart = 65536 + (h.freeEnd - h.freeStart) by omega]
    rw [Nat.add_mod_left]
    exact Nat.mod_eq_of_lt (by omega)
  have hso : (h.freeEnd + 65536 - 4) % 65536 = h.freeEnd - 4 := by
    rw [show h.freeEnd + 65536 - 4 = 65536 + (h.freeEnd - 4) by omega]
    rw [Nat.add_mod_left]
    exact Nat.mod_eq_of_lt (by omega)
  have hfs2 : (h.freeStart + rec.length) % 65536 = h.freeStart + rec.length :=
    Nat.mod_eq_of_lt (by omega)
  obtain ⟨b1, hw1⟩ : ∃ b1, writeAt buf h.freeStart rec = some b1 :=
    ⟨_, writeAt_some (by omega)⟩
  have hb1len := length_writeAt hw1
  obtain ⟨b2, hw2⟩ : ∃ b2, writeAt b1 (h.freeEnd - 4)
      (toLE 2 h.freeStart ++ toLE 2 rec.length) = some b2 := by
    refine ⟨_, writeAt_some ?_⟩
    simp only [List.length_append, length_toLE, hb1len]
    omega
  have hb2len := length_writeAt hw2
  obtain ⟨b3, hw3⟩ : ∃ b3, writeAt b2 0 (oldHeaderBytes
      { h with slotCount := (h.slotCount + 1) % 65536,
               freeStart := h.freeStart + rec.length,
               freeEnd := h.freeEnd - 4 }) = some b3 := by
    refine ⟨_, writeAt_some ?_⟩
    simp only [oldHeaderBytes, List.length_append, length_toLE, hb2len, hb1len]
    omega
  refine ⟨b3, ?_⟩
  unfold oldInsertRecord
  rw [hh]
  simp only [SLOT_SIZE, hsmall, hreq, havail, hso, hfs2]
  rw [if_neg (by omega)]
  simp only [hw1]
  simp only [hw2]
  simp only [hw3]
  have hid : ((h.slotCount + 1) % 65536 + 65536 - 1) % 65536 = h.slotCount := by omega
  rw [hid]

theorem oldInsertRecord_errFull {buf rec : List Nat} {h : OldHeader}
    (hh : oldReadHeader buf = some h)
    (hfs : h.freeStart ≤ h.freeEnd)
    (hrb : rec.length + SLOT_SIZE ≤ 65535) (hfe2 : h.freeEnd ≤ 65535)
    (hnofit : h.freeEnd - h.freeStart < rec.length + SLOT_SIZE) :
    oldInsertRecord buf rec = .errFull buf := by
  unfold oldInsertRecord
  rw [hh]
  simp only [SLOT_SIZE] at hrb hnofit ⊢
  have hsmall : rec.length % 65536 = rec.length := Nat.mod_eq_of_lt (by omega)
  rw [hsmall]
  have hreq : (rec.length + 4) % 65536 = rec.length + 4 := Nat.mod_eq_of_lt (by omega)
  rw [hreq]
  have havail : (h.freeEnd + 65536 - h.freeStart) % 65536 = h.freeEnd - h.freeStart := by
    rw [show h.freeEnd + 65536 - h.freeStart = 65536 + (h.freeEnd - h.freeStart) by omega]
    rw [Nat.add_mod_left]
    exact Nat.mod_eq_of_lt (by omega)
  rw [havail]
  rw [if_pos (by omega)]

end FluxDb
namespace FluxDb

/-- Invariant preservation along a successful insert sequence. -/
theorem applyInserts_wf {ps : Nat} :
    ∀ (recs : List (List Nat)) (buf buf2 : List Nat) (l : HeapLayout),
    readHeapHeader buf = some l → 30 ≤ l.freeStart → l.freeStart ≤ l.freeEnd →
    l.freeEnd ≤ buf.length → buf.length = ps → ps ≤ 65535 →
    l.slotCount * SLOT_SIZE = ps - l.freeEnd →
    applyInserts recs buf = some buf2 →
    ∃ l2, readHeapHeader buf2 = some l2 ∧ 30 ≤ l2.freeStart ∧
      l2.freeStart ≤ l2.freeEnd ∧ l2.freeEnd ≤ buf2.length ∧ buf2.length = ps ∧
      l2.slotCount * SLOT_SIZE = ps - l2.freeEnd
  | [], buf, buf2, l, hh, h30, hfs, hfe, hps, hub, hsc, happ => by
    unfold applyInserts at happ
    cases happ
    exact ⟨l, hh, h30, hfs, hfe, hps, hsc⟩
  | r :: rs, buf, buf2, l, hh, h30, hfs, hfe, hps, hub, hsc, happ => by
    unfold applyInserts at happ
    cases hins : insertHeapRecord buf r with
    | ok b =>
      rw [hins] at happ
      have hfit := insertHeapRecord_ok_inv hh h30 hfs (by omega) hins
      obtain ⟨buf3, hok3, hlen3, hhdr3, _, _⟩ :=
        insertHeapRecord_fit hh h30 (by omega) (by omega) hfit
      have hbeq : buf3 = b := by
        rw [hins] at hok3
        cases hok3
        rfl
      rw [hbeq] at hhdr3 hlen3
      have hscsmall : l.slotCount ≤ 16383 := by
        simp [SLOT_SIZE] at hsc
        omega
      have hmod : (l.slotCount + 1) % 65536 = l.slotCount + 1 :=
        Nat.mod_eq_of_lt (by omega)
      rw [hmod] at hhdr3
      refine applyInserts_wf rs b buf2 _ hhdr3 ?_ ?_ ?_ ?_ ?_ ?_ happ <;>
        dsimp only <;> simp only [SLOT_SIZE] at hfit hsc ⊢ <;> omega
    | errFull b =>
      rw [hins] at happ
      cases happ
    | panicked =>
      rw [hins] at happ
      cases happ

end FluxDb
namespace FluxDb

/-- A record big enough that `len as u16 + SLOT_SIZE` wraps slips past the
free-space check and panics on the buffer write. -/
theorem insertHeapRecord_overflow_panics {buf rec : List Nat} {l : HeapLayout}
    (hh : readHeapHeader buf = some l)
    (h30 : 30 ≤ l.freeStart) (hfs : l.freeStart ≤ l.freeEnd)
    (hfe : l.freeEnd ≤ buf.length) (hlen : buf.length ≤ 65535)
    (hrb : 65532 ≤ rec.length) (hrb2 : rec.length ≤ 65535)
    (hpass : rec.length - 65532 ≤ l.freeEnd - l.freeStart) :
    insertHeapRecord buf rec = HeapIns.panicked := by
  unfold insertHeapRecord
  rw [hh]
  have hsmall : rec.length % 65536 = rec.length := Nat.mod_eq_of_lt (by omega)
  have hreq : (rec.length % 65536 + SLOT_SIZE) % 65536 = rec.length - 65532 := by
    rw [hsmall]
    simp only [SLOT_SIZE]
    omega
  have hfree : (l.freeEnd + 65536 - l.freeStart) % 65536 = l.freeEnd - l.freeStart := by
    rw [show l.freeEnd + 65536 - l.freeStart = 65536 + (l.freeEnd - l.freeStart) by omega]
    rw [Nat.add_mod_left]
    exact Nat.mod_eq_of_lt (by omega)
  have hw : writeAt buf l.freeStart rec = none := by
    unfold writeAt
    rw [if_neg (by omega)]
  simp only [hreq, hfree]
  rw [if_neg (by omega)]
  simp only [hw]

/-- Claim C4 counterexample: on a fresh 64-byte heap page a 65532-byte
record has `required = len + SLOT_SIZE = 65536` exceeding the 34 free
bytes, so the claim demands the PageFull error return; instead the u16
cast wraps `required` to 0, the free-space check passes, and the record
write panics. -/
theorem c4_counterexample_oversized_record_panics :
    insertHeapRecord page64 c4BigRecord = HeapIns.panicked ∧
    64 - 30 < c4BigRecord.length + SLOT_SIZE := by
  obtain ⟨buf, hb⟩ := pageNew_build 64 0 (by norm_num)
  have hc : page64 = buf := by
    unfold page64
    rw [hb]
    rfl
  obtain ⟨h30, hlen, hhdr⟩ := pageNew_inv hb
  have hbig : c4BigRecord.length = 65532 := by
    unfold c4BigRecord
    exact List.length_replicate 65532 0
  have hhdr2 : readHeapHeader buf = some ⟨0, 30, 64⟩ := by
    rw [hhdr]
  constructor
  · rw [hc]
    exact insertHeapRecord_overflow_panics hhdr2 (by norm_num) (by norm_num)
      (by dsimp only; omega) (by omega) (by omega) (by omega) (by dsimp only; omega)
  · rw [hbig]
    simp only [SLOT_SIZE]
    omega

/-- Claim C4, amended: for a well-formed heap sub-header and a record with
`len + SLOT_SIZE` within u16 range, `insert_record` fails with the
page-full error — leaving the buffer untouched — exactly when
`required > free_end - free_start`; otherwise it writes the record at
free_start, a slot directly below free_end, advances free_start by len,
retreats free_end by SLOT_SIZE, increments slot_count and rewrites the
sub-header; and the generation of `insert_record` that reports slot ids
(src/src/storage/page.rs) returns the previous slot_count. -/
theorem c4_insert_record_amended :
    (∀ (buf rec : List Nat) (l : HeapLayout),
      readHeapHeader buf = some l → 30 ≤ l.freeStart → l.freeStart ≤ l.freeEnd →
      l.freeEnd ≤ buf.length → buf.length ≤ 65535 →
      rec.length + SLOT_SIZE ≤ 65535 →
      (l.freeEnd - l.freeStart < rec.length + SLOT_SIZE →
        insertHeapRecord buf rec = .errFull buf) ∧
      (rec.length + SLOT_SIZE ≤ l.freeEnd - l.freeStart →
        ∃ buf3, insertHeapRecord buf rec = .ok buf3 ∧ buf3.length = buf.length ∧
          readHeapHeader buf3 =
            some ⟨(l.slotCount + 1) % 65536, l.freeStart + rec.length,
                  l.freeEnd - SLOT_SIZE⟩ ∧
          readAt buf3 l.freeStart rec.length = some rec ∧
          readAt buf3 (l.freeEnd - SLOT_SIZE) SLOT_SIZE =
            some (toLE 2 l.freeStart ++ toLE 2 rec.length))) ∧
    (∀ (buf rec : List Nat) (h : OldHeader),
      oldReadHeader buf = some h → h.slotCount < 65536 → h.freeEnd ≤ buf.length →
      buf.length ≤ 65535 →
      (h.freeStart ≤ h.freeEnd → rec.length + SLOT_SIZE ≤ 65535 →
        h.freeEnd - h.freeStart < rec.length + SLOT_SIZE →
        oldInsertRecord buf rec = .errFull buf) ∧
      (h.freeStart + rec.length + SLOT_SIZE ≤ h.freeEnd →
        ∃ buf3, oldInsertRecord buf rec = .ok h.slotCount buf3)) := by
  constructor
  · intro buf rec l hh h30 hfs hfe hlen hrb
    constructor
    · intro hnofit
      exact insertHeapRecord_errFull hh hfs hfe hlen hrb hnofit
    · intro hfit
      exact insertHeapRecord_fit hh h30 hfe hlen (by simp only [SLOT_SIZE] at hfit ⊢; omega)
  · intro buf rec h hh hsc hfe hlen
    constructor
    · intro hfs hrb hnofit
      exact oldInsertRecord_errFull hh hfs hrb (by omega) hnofit
    · intro hfit
      exact oldInsertRecord_fit hh hsc hfe hlen hfit

set_option maxRecDepth 40000 in
/-- Witness for C4: both generations on concrete pages; the new-generation
insert of a 3-byte record into a fresh 64-byte page yields slot bytes,
advanced sub-header and the record at offset 30; the old generation
returns the previous slot count 0. -/
theorem c4_insert_record_witness :
    readHeapHeader page64 = some ⟨0, 30, 64⟩ ∧
    (∃ buf3, insertHeapRecord page64 [1, 2, 3] = .ok buf3 ∧
      buf3.length = page64.length ∧
      readHeapHeader buf3 = some ⟨1, 33, 60⟩ ∧
      readAt buf3 30 3 = some [1, 2, 3] ∧
      readAt buf3 60 4 = some (toLE 2 30 ++ toLE 2 3)) ∧
    (∃ buf3, oldInsertRecord oldPage64 [9] = .ok 0 buf3) := by
  refine ⟨by decide, ?_, ?_⟩
  · have h := (c4_insert_record_amended.1 page64 [1, 2, 3] ⟨0, 30, 64⟩
      (by decide) (by norm_num) (by norm_num) (by decide) (by decide) (by decide)).2
      (by decide)
    simpa [SLOT_SIZE] using h
  · exact (c4_insert_record_amended.2 oldPage64 [9] ⟨3, 0, 32, 64, 0⟩
      (by decide) (by norm_num) (by decide) (by decide)).2 (by decide)

/-- Claim C5 counterexample: `Page::new` with page size 65566 truncates
`free_end` to `65566 mod 65536 = 30`, so the fresh page already violates
`slot_count * SLOT_SIZE = page_size - free_end` (0 vs 65536) before any
insert. -/
theorem c5_counterexample_page_size_truncation :
    ∃ buf, pageNew 65566 PageType.heapPage 0 = some buf ∧ buf.length = 65566 ∧
      readHeapHeader buf = some ⟨0, 30, 30⟩ ∧ ¬ (0 * SLOT_SIZE = buf.length - 30) := by
  obtain ⟨buf, hb⟩ := pageNew_build 65566 0 (by norm_num)
  obtain ⟨h30, hlen, hhdr⟩ := pageNew_inv hb
  refine ⟨buf, hb, hlen, ?_, ?_⟩
  · rw [hhdr]
  · rw [hlen]
    simp [SLOT_SIZE]

/-- Claim C5, amended: for every page produced by `Page::new` with a page
size of at most 65535 bytes, after any sequence of successful
`insert_record` calls the sub-header satisfies `free_start ≤ free_end`
and `slot_count * SLOT_SIZE = page_size - free_end`. -/
theorem c5_free_space_invariant_amended
    (ps pid : Nat) (t : PageType) (recs : List (List Nat)) (buf0 buf : List Nat)
    (hnew : pageNew ps t pid = some buf0) (hps : ps ≤ 65535)
    (happ : applyInserts recs buf0 = some buf) :
    ∃ l, readHeapHeader buf = some l ∧ l.freeStart ≤ l.freeEnd ∧
      l.slotCount * SLOT_SIZE = ps - l.freeEnd := by
  obtain ⟨h30, hlen, hhdr⟩ := pageNew_inv hnew
  have hfe : ps % 65536 = ps := Nat.mod_eq_of_lt (by omega)
  rw [hfe] at hhdr
  obtain ⟨l2, h1, h2, h3, h4, h5, h6⟩ :=
    applyInserts_wf recs buf0 buf _ hhdr (by norm_num) (by dsimp only; omega)
      (by dsimp only; omega) hlen hps (by dsimp only; simp only [SLOT_SIZE]; omega) happ
  exact ⟨l2, h1, h3, h6⟩

set_option maxRecDepth 40000 in
/-- Witness for C5: two successful inserts on a fresh 64-byte page keep
the invariant. -/
theorem c5_free_space_invariant_witness :
    ∃ l, readHeapHeader ((applyInserts [[5], [6, 7]] page64).getD []) = some l ∧
      l.freeStart ≤ l.freeEnd ∧ l.slotCount * SLOT_SIZE = 64 - l.freeEnd :=
  c5_free_space_invariant_amended 64 0 PageType.heapPage [[5], [6, 7]] page64
    ((applyInserts [[5], [6, 7]] page64).getD []) (by decide) (by norm_num) (by decide)

/-- Claim C10 (confirmed): on a page whose sub-header satisfies
`free_start ≤ free_end`, when `insert_heap_record` returns the
not-enough-space error the page buffer is byte-for-byte unchanged — the
free-space check precedes every write. -/
theorem c10_insert_error_leaves_page_unchanged
    (buf rec out : List Nat) (l : HeapLayout)
    (hh : readHeapHeader buf = some l) (hfs : l.freeStart ≤ l.freeEnd)
    (herr : insertHeapRecord buf rec = .errFull out) : out = buf :=
  insertHeapRecord_errFull_inv herr

set_option maxRecDepth 40000 in
/-- Witness for C10: a full 34-byte page rejects a 1-byte record and the
error carries the untouched buffer. -/
theorem c10_insert_error_witness :
    readHeapHeader fullPage34 = some ⟨0, 30, 34⟩ ∧ (30 : Nat) ≤ 34 ∧
    insertHeapRecord fullPage34 [7] = .errFull fullPage34 ∧
    fullPage34 = fullPage34 :=
  ⟨by decide, by norm_num,
   by decide,
   c10_insert_error_leaves_page_unchanged fullPage34 [7] fullPage34 ⟨0, 30, 34⟩
     (by decide) (by norm_num) (by decide)⟩

end FluxDb
namespace FluxDb

@[simp] theorem FRes.bind_ok {α β : Type} (a : α) (f : α → FRes β) :
    FRes.bind (.ok a) f = f a := rfl

@[simp] theorem FRes.bind_err {α β : Type} (e : FErr) (f : α → FRes β) :
    FRes.bind (.err e) f = .err e := rfl

@[simp] theorem FRes.bind_panicked {α β : Type} (f : α → FRes β) :
    FRes.bind (.panicked) f = .panicked := rfl

@[simp] theorem FRes.bind_noFuel {α β : Type} (f : α → FRes β) :
    FRes.bind (.noFuel) f = .noFuel := rfl

theorem FRes.bind_ok_inv {α β : Type} {x : FRes α} {f : α → FRes β} {b : β}
    (h : x.bind f = .ok b) : ∃ a, x = .ok a ∧ f a = .ok b := by
  cases x with
  | ok a => exact ⟨a, rfl, h⟩
  | err e => cases h
  | panicked => cases h
  | noFuel => cases h

theorem readPage_ok_inv {st : PagerState} {pid : Nat} {p : PPage}
    (h : readPage st pid = .ok p) : st.pages.get? pid = some p := by
  unfold readPage at h
  cases hg : st.pages.get? pid with
  | none => rw [hg] at h; cases h
  | some q => rw [hg] at h; cases h; rfl

theorem readPage_writePage_self {st : PagerState} {pid : Nat} {p : PPage}
    (h : pid < st.pages.length) : readPage (writePage st pid p) pid = .ok p := by
  unfold readPage writePage
  simp [List.getElem?_set, h]

theorem readPage_writePage_other {st : PagerState} {pid pid2 : Nat} {p : PPage}
    (hne : pid2 ≠ pid) : readPage (writePage st pid p) pid2 = readPage st pid2 := by
  unfold readPage writePage
  simp only [List.get?_eq_getElem?]
  rw [List.getElem?_set]
  simp [Ne.symm hne]

theorem writePage_pageSize (st : PagerState) (pid : Nat) (p : PPage) :
    (writePage st pid p).pageSize = st.pageSize := rfl

theorem writePage_length (st : PagerState) (pid : Nat) (p : PPage) :
    (writePage st pid p).pages.length = st.pages.length := by
  simp [writePage]

end FluxDb
namespace FluxDb

theorem recordDecodeR_encode (rt : RecordType) (payload : List Nat) :
    recordDecodeR (recordEncode rt payload) = some (RecordType.fromU8R rt.tag, payload) := rfl

theorem fromU8R_root : RecordType.fromU8R (RecordType.tag .catalogRoot) = .catalogRoot := rfl

theorem fromU8R_table : RecordType.fromU8R (RecordType.tag .catalogTable) = .catalogTable := rfl

theorem fromU8R_column : RecordType.fromU8R (RecordType.tag .catalogColumn) = .catalogColumn := rfl

theorem persistCatalogRoot_ok_inv {st st' : PagerState} {root : CatalogRoot}
    (hp : persistCatalogRoot st root = .ok st') :
    st'.pageSize = st.pageSize ∧ st'.pages.length = st.pages.length ∧
    (st.pages ≠ [] → loadCatalogRoot st' = .ok root.stored) := by
  unfold persistCatalogRoot at hp
  simp only at hp
  cases hins : (PPage.new st.pageSize PageType.catalogPage 0).insertRecord
      (recordEncode .catalogRoot root.serialize) with
  | none => rw [hins] at hp; cases hp
  | some np =>
    rw [hins] at hp
    cases hp
    refine ⟨rfl, writePage_length st 0 np.2, fun hne => ?_⟩
    have hlen : 0 < st.pages.length := by
      cases hps : st.pages with
      | nil => exact absurd hps hne
      | cons a l => simp [hps]
    unfold loadCatalogRoot
    rw [readPage_writePage_self hlen]
    simp only [FRes.bind_ok]
    have hrecs : np.2.records = [recordEncode .catalogRoot root.serialize] := by
      unfold PPage.insertRecord at hins
      split at hins
      · cases hins
        rfl
      · cases hins
    rw [hrecs]
    simp only [List.get?_eq_getElem?, List.getElem?_cons_zero]
    rw [recordDecodeR_encode]
    simp only [RecordType.tag, RecordType.fromU8R]
    norm_num
    rw [catalogRoot_roundtrip]
    rfl

end FluxDb
namespace FluxDb

/-- The chain-insert loop only grows the file and keeps the page size. -/
theorem chainInsert_frame :
    ∀ (fuel : Nat) (st : PagerState) (pid : Nat) (bytes : List Nat) (st' : PagerState),
    chainInsert fuel st pid bytes = .ok st' →
    st'.pageSize = st.pageSize ∧ st.pages.length ≤ st'.pages.length
  | 0, st, pid, bytes, st', h => by cases h
  | fuel + 1, st, pid, bytes, st', h => by
    unfold chainInsert at h
    obtain ⟨page, hrp, hrest⟩ := FRes.bind_ok_inv h
    cases hins : page.insertRecord bytes with
    | some r =>
      simp only [hins] at hrest
      cases hrest
      exact ⟨rfl, le_of_eq (writePage_length st pid r.2).symm⟩
    | none =>
      simp only [hins] at hrest
      split at hrest
      · obtain ⟨h1, h2⟩ := chainInsert_frame fuel st page.nextPageId bytes st' hrest
        exact ⟨h1, h2⟩
      · have := chainInsert_frame fuel _ _ bytes st' hrest
        obtain ⟨h1, h2⟩ := this
        refine ⟨by rw [h1]; rfl, ?_⟩
        have hlen : (writePage ((allocatePage st PageType.catalogPage).2) pid
            { page with nextPageId := (allocatePage st PageType.catalogPage).1.pageId
            }).pages.length = st.pages.length + 1 := by
          rw [writePage_length]
          simp [allocatePage]
        omega

theorem createTable_step {fuel : Nat} {st : PagerState} {name : ByteStr}
    {tm : TableMeta} {st' : PagerState}
    (hc : createTable fuel st name = .ok (tm, st')) :
    ∃ root, loadCatalogRoot st = .ok root ∧ tm = ⟨root.nextTableId, name⟩ ∧
      loadCatalogRoot st' = .ok (CatalogRoot.stored
        ⟨root.version, root.nextTableId + 1, root.nextColumnId, root.catalogRootPageId⟩) ∧
      st'.pageSize = st.pageSize ∧ 0 < st'.pages.length := by
  unfold createTable at hc
  obtain ⟨root, hroot, hrest⟩ := FRes.bind_ok_inv hc
  obtain ⟨st1, hchain, hrest2⟩ := FRes.bind_ok_inv hrest
  obtain ⟨st2, hpersist, hrest3⟩ := FRes.bind_ok_inv hrest2
  cases hrest3
  have hne : st.pages ≠ [] := by
    intro hnil
    unfold loadCatalogRoot readPage at hroot
    rw [hnil] at hroot
    simp [FRes.bind] at hroot
  obtain ⟨hf1, hf2⟩ := chainInsert_frame fuel st root.catalogRootPageId _ st1 hchain
  obtain ⟨hp1, hp2, hp3⟩ := persistCatalogRoot_ok_inv hpersist
  have hne1 : st1.pages ≠ [] := by
    intro hnil
    rw [hnil] at hf2
    simp at hf2
    cases hps : st.pages with
    | nil => exact hne hps
    | cons a l => rw [hps] at hf2; simp at hf2
  refine ⟨root, hroot, rfl, hp3 hne1, by rw [hp1, hf1], ?_⟩
  rw [hp2]
  cases hps : st1.pages with
  | nil => exact absurd hps hne1
  | cons a l => simp

end FluxDb
namespace FluxDb

theorem addColumn_step {fuel : Nat} {st : PagerState} {tname : ByteStr}
    {colIn : TableColumnR} {c : TableColumnR} {st' : PagerState}
    (hc : addColumn fuel st tname colIn = .ok (c, st')) :
    ∃ root table, findTableByName fuel st tname = .ok table ∧
      loadCatalogRoot st = .ok root ∧
      c = ⟨table.tableId, root.nextColumnId, colIn.name⟩ ∧
      loadCatalogRoot st' = .ok (CatalogRoot.stored
        ⟨root.version, root.nextTableId, root.nextColumnId + 1, root.catalogRootPageId⟩) ∧
      st'.pageSize = st.pageSize ∧ 0 < st'.pages.length := by
  unfold addColumn at hc
  obtain ⟨table, htable, hrest⟩ := FRes.bind_ok_inv hc
  obtain ⟨root, hroot, hrest2⟩ := FRes.bind_ok_inv hrest
  obtain ⟨st1, hchain, hrest3⟩ := FRes.bind_ok_inv hrest2
  obtain ⟨st2, hpersist, hrest4⟩ := FRes.bind_ok_inv hrest3
  cases hrest4
  have hne : st.pages ≠ [] := by
    intro hnil
    unfold loadCatalogRoot readPage at hroot
    rw [hnil] at hroot
    simp [FRes.bind] at hroot
  obtain ⟨hf1, hf2⟩ := chainInsert_frame fuel st root.catalogRootPageId _ st1 hchain
  obtain ⟨hp1, hp2, hp3⟩ := persistCatalogRoot_ok_inv hpersist
  have hne1 : st1.pages ≠ [] := by
    intro hnil
    rw [hnil] at hf2
    simp at hf2
    cases hps : st.pages with
    | nil => exact hne hps
    | cons a l => rw [hps] at hf2; simp at hf2
  refine ⟨root, table, htable, hroot, rfl, hp3 hne1, by rw [hp1, hf1], ?_⟩
  rw [hp2]
  cases hps : st1.pages with
  | nil => exact absurd hps hne1
  | cons a l => simp

end FluxDb
namespace FluxDb

/-- The ids assigned by a successful `runOps` run are consecutive: provided
neither counter wraps during the run, the table ids are
`next_table_id, next_table_id+1, ...` and the column ids are
`next_column_id, next_column_id+1, ...`. -/
theorem runOps_ids (ops : List Op) : ∀ (fuel : Nat) (st : PagerState)
    (root : CatalogRoot) (tids cids : List Nat) (stf : PagerState),
    loadCatalogRoot st = .ok root →
    runOps fuel st ops = .ok (tids, cids, stf) →
    root.nextTableId + tids.length ≤ 4294967296 →
    root.nextColumnId + cids.length ≤ 4294967296 →
    tids = List.range' root.nextTableId tids.length ∧
    cids = List.range' root.nextColumnId cids.length := by
  induction ops with
  | nil =>
    intro fuel st root tids cids stf hroot hrun hbt hbc
    unfold runOps at hrun
    cases hrun
    exact ⟨rfl, rfl⟩
  | cons op ops ih =>
    intro fuel st root tids cids stf hroot hrun hbt hbc
    cases op with
    | mkTable name =>
      unfold runOps at hrun
      obtain ⟨r, hct, hrest⟩ := FRes.bind_ok_inv hrun
      obtain ⟨tm, st1⟩ := r
      obtain ⟨acc, hops, hrest2⟩ := FRes.bind_ok_inv hrest
      obtain ⟨atids, acids, astf⟩ := acc
      cases hrest2
      dsimp only at hbt hbc
      obtain ⟨root0, hroot0, htm, hload, hps, hpos⟩ := createTable_step hct
      rw [hroot] at hroot0
      cases hroot0
      simp only [List.length_cons] at hbt ⊢
      have hih := ih fuel st1 _ atids acids astf hload hops
        (by simp only [CatalogRoot.stored]; omega)
        (by simp only [CatalogRoot.stored]; omega)
      simp only [CatalogRoot.stored] at hih
      obtain ⟨hta, hca⟩ := hih
      subst htm
      refine ⟨?_, ?_⟩
      · rw [List.range'_succ]
        refine congrArg₂ (· :: ·) rfl ?_
        cases atids with
        | nil => rfl
        | cons a as =>
          have hm : (root.nextTableId + 1) % 4294967296 = root.nextTableId + 1 := by
            simp only [List.length_cons] at hbt
            omega
          rw [hm] at hta
          exact hta
      · cases acids with
        | nil => rfl
        | cons a as =>
          have hm : root.nextColumnId % 4294967296 = root.nextColumnId := by
            simp only [List.length_cons] at hbc
            omega
          rw [hm] at hca
          exact hca
    | mkColumn tbl col =>
      unfold runOps at hrun
      obtain ⟨r, hac, hrest⟩ := FRes.bind_ok_inv hrun
      obtain ⟨c, st1⟩ := r
      obtain ⟨acc, hops, hrest2⟩ := FRes.bind_ok_inv hrest
      obtain ⟨atids, acids, astf⟩ := acc
      cases hrest2
      dsimp only at hbt hbc
      obtain ⟨root0, table, htable, hroot0, hcol, hload, hps, hpos⟩ := addColumn_step hac
      rw [hroot] at hroot0
      cases hroot0
      simp only [List.length_cons] at hbc ⊢
      have hih := ih fuel st1 _ atids acids astf hload hops
        (by simp only [CatalogRoot.stored]; omega)
        (by simp only [CatalogRoot.stored]; omega)
      simp only [CatalogRoot.stored] at hih
      obtain ⟨hta, hca⟩ := hih
      subst hcol
      refine ⟨?_, ?_⟩
      · cases atids with
        | nil => rfl
        | cons a as =>
          have hm : root.nextTableId % 4294967296 = root.nextTableId := by
            simp only [List.length_cons] at hbt
            omega
          rw [hm] at hta
          exact hta
      · rw [List.range'_succ]
        refine congrArg₂ (· :: ·) rfl ?_
        cases acids with
        | nil => rfl
        | cons a as =>
          have hm : (root.nextColumnId + 1) % 4294967296 = root.nextColumnId + 1 := by
            simp only [List.length_cons] at hbc
            omega
          rw [hm] at hca
          exact hca

end FluxDb
namespace FluxDb

set_option maxRecDepth 10000 in
/-- Counterexample to the strict-increase part of C7: with `next_table_id`
at `u32::MAX`, two consecutive successful `create_table` calls assign the
ids 4294967295 and then 0 — the second id is smaller than the first,
because the incremented counter is truncated to 32 bits when the
CatalogRoot is re-serialized by `persist_catalog_root`. -/
theorem c7_counterexample_id_wrap :
    createIdsTwice stWrap = some (4294967295, 0) ∧ ¬ (4294967295 < 0) := by
  exact ⟨by decide, by decide⟩

/-- C7 (amended): across any successful sequence of `create_table` and
`add_column` calls, the assigned table ids are strictly increasing and
unique, and the assigned column ids are strictly increasing and unique —
provided neither u32 counter in the CatalogRoot wraps during the run
(each call reads the counter, assigns it, increments it and persists the
root; persisting truncates the counter mod 2^32, so without the no-wrap
bounds strictness fails, as `c7_counterexample_id_wrap` shows). -/
theorem c7_id_monotonicity_amended {fuel : Nat} {st : PagerState}
    {root : CatalogRoot} {ops : List Op} {tids cids : List Nat}
    {stf : PagerState}
    (hroot : loadCatalogRoot st = .ok root)
    (hrun : runOps fuel st ops = .ok (tids, cids, stf))
    (hbt : root.nextTableId + tids.length ≤ 4294967296)
    (hbc : root.nextColumnId + cids.length ≤ 4294967296) :
    List.Pairwise (· < ·) tids ∧ List.Pairwise (· < ·) cids := by
  obtain ⟨hta, hca⟩ := runOps_ids ops fuel st root tids cids stf hroot hrun hbt hbc
  rw [hta, hca]
  exact ⟨List.pairwise_lt_range' _ _, List.pairwise_lt_range' _ _⟩

set_option maxRecDepth 10000 in
/-- Witness: running two `create_table` and two `add_column` calls on the
fresh database assigns table ids `[1, 2]` and column ids `[1, 2]`, both
strictly increasing. -/
theorem c7_id_monotonicity_witness :
    runOps 9 stInit c7ops = .ok (c7tids, c7cids, c7stf) ∧
      List.Pairwise (· < ·) c7tids ∧ List.Pairwise (· < ·) c7cids := by
  have hrun : runOps 9 stInit c7ops = .ok (c7tids, c7cids, c7stf) := by decide
  have hroot : loadCatalogRoot stInit = .ok ⟨1, 1, 1, 1⟩ := by decide
  have h := c7_id_monotonicity_amended hroot hrun (by decide) (by decide)
  exact ⟨hrun, h⟩

end FluxDb
namespace FluxDb


/-- Looking a key up after `entry(k).or_default().push(v)` yields the old
list (or `[]`) with `v` appended. -/
theorem alookup_apush {β : Type} (k : Nat) (v : β)
    (m : List (Nat × List β)) :
    alookup k (apush k v m) = some ((alookup k m).getD [] ++ [v]) := by
  induction m with
  | nil => simp [alookup, apush]
  | cons p rest ih =>
    obtain ⟨k1, vs⟩ := p
    by_cases hk : k1 = k
    · subst hk
      simp [alookup, apush]
    · simp [alookup, apush, hk, ih]

/-- Counterexample to C3: re-adding the existing column `id` of table
`users` is not a no-op — it succeeds and appends a second column named
`id` (with a fresh column id), so the table ends up with two columns of
the same name. -/
theorem c3_counterexample_duplicate_column_appended :
    c3ColsAfter = some [⟨1, 1, nameId⟩, ⟨1, 2, nameId⟩] ∧
      alookup 1 dbDup.catalog.columnsByTable = some [⟨1, 1, nameId⟩] := by
  exact ⟨by decide, by decide⟩

/-- C3 (amended): the facade's `add_column` performs no duplicate-name
check at all.  Whenever it succeeds — including when a column of the same
name already exists for the table — it chain-inserts a record into the
heap, appends the new column (with a fresh `column_id`) to that table's
entry in `columns_by_table`, and persists the incremented counter; it is
never the claimed silent no-op. -/
theorem c3_add_column_amended {fuel : Nat} {db : Database} {tname : ByteStr}
    {tid : Nat} {colIn : TableColumnR} {db2 : Database}
    (htid : alookup tname db.catalog.tablesByName = some tid)
    (hc : dbAddColumn fuel db tname colIn = .ok db2) :
    ∃ root table, findTableByName fuel db.pager tname = .ok table ∧
      loadCatalogRoot db.pager = .ok root ∧
      db2.catalog.columnsByTable =
        apush tid ⟨table.tableId, root.nextColumnId, colIn.name⟩
          db.catalog.columnsByTable ∧
      alookup tid db2.catalog.columnsByTable =
        some ((alookup tid db.catalog.columnsByTable).getD [] ++
          [⟨table.tableId, root.nextColumnId, colIn.name⟩]) ∧
      loadCatalogRoot db2.pager = .ok (CatalogRoot.stored
        ⟨root.version, root.nextTableId, root.nextColumnId + 1,
         root.catalogRootPageId⟩) := by
  unfold dbAddColumn at hc
  rw [htid] at hc
  obtain ⟨r, hac, hrest⟩ := FRes.bind_ok_inv hc
  obtain ⟨c, st1⟩ := r
  cases hrest
  obtain ⟨root, table, htable, hroot, hcol, hload, hps, hpos⟩ := addColumn_step hac
  subst hcol
  exact ⟨root, table, htable, hroot, rfl, alookup_apush tid _ _, hload⟩

set_option maxRecDepth 10000 in
/-- Witness: re-adding column `id` to table `users` of the concrete
database appends `⟨1, 2, id⟩` to the cached column list and bumps the
persisted `next_column_id` to 3. -/
theorem c3_add_column_witness :
    alookup nameUsers dbDup.catalog.tablesByName = some 1 ∧
      dbAddColumn 9 dbDup nameUsers ⟨0, 0, nameId⟩ = .ok c3dbAfter ∧
      (∃ root table,
        findTableByName 9 dbDup.pager nameUsers = .ok table ∧
        loadCatalogRoot dbDup.pager = .ok root ∧
        c3dbAfter.catalog.columnsByTable =
          apush 1 ⟨table.tableId, root.nextColumnId, nameId⟩
            dbDup.catalog.columnsByTable ∧
        alookup 1 c3dbAfter.catalog.columnsByTable =
          some ((alookup 1 dbDup.catalog.columnsByTable).getD [] ++
            [⟨table.tableId, root.nextColumnId, nameId⟩]) ∧
        loadCatalogRoot c3dbAfter.pager = .ok (CatalogRoot.stored
          ⟨root.version, root.nextTableId, root.nextColumnId + 1,
           root.catalogRootPageId⟩)) := by
  have htid : alookup nameUsers dbDup.catalog.tablesByName = some 1 := by decide
  have hc : dbAddColumn 9 dbDup nameUsers ⟨0, 0, nameId⟩ = .ok c3dbAfter := by decide
  exact ⟨htid, hc, c3_add_column_amended htid hc⟩

end FluxDb
namespace FluxDb

/-- On well-formed records without a CatalogRoot tag, the slot scan of
`load_catalog` succeeds and appends exactly the decoded CatalogTable and
CatalogColumn records to its accumulators. -/
theorem collectRecords_ok (recs : List (List Nat)) : ∀ ts cs,
    (∀ raw ∈ recs, recWellFormed raw = true) →
    hasRootRec recs = false →
    collectRecords recs ts cs = .ok (ts ++ tablesOfRecs recs, cs ++ colsOfRecs recs) := by
  induction recs with
  | nil =>
    intro ts cs _ _
    simp [collectRecords, tablesOfRecs, colsOfRecs]
  | cons raw rest ih =>
    intro ts cs hwf hroot
    have hw : recWellFormed raw = true := hwf raw (by simp)
    have hwrest : ∀ r ∈ rest, recWellFormed r = true := fun r hr => hwf r (by simp [hr])
    simp only [hasRootRec, List.any_cons, Bool.or_eq_false_iff] at hroot
    unfold recWellFormed at hw
    unfold collectRecords
    cases hdec : recordDecodeR raw with
    | none => rw [hdec] at hw; simp at hw
    | some p =>
      obtain ⟨rt, payload⟩ := p
      rw [hdec] at hw hroot
      dsimp only at hw hroot ⊢
      cases rt with
      | catalogRoot => simp at hroot
      | catalogTable =>
        cases hdes : TableMeta.deserialize payload with
        | ok t =>
          simp only [hdes]
          rw [ih (ts ++ [t]) cs hwrest hroot.2]
          simp [tablesOfRecs, colsOfRecs, List.filterMap_cons, hdec, hdes]
        | err => simp [hdes] at hw
        | panicked => simp [hdes] at hw
      | catalogColumn =>
        cases hdes : TableColumnR.deserialize payload with
        | ok c =>
          simp only [hdes]
          rw [ih ts (cs ++ [c]) hwrest hroot.2]
          simp [tablesOfRecs, colsOfRecs, List.filterMap_cons, hdec, hdes]
        | err => simp [hdes] at hw
        | panicked => simp [hdes] at hw
      | heapRow =>
        rw [ih ts cs hwrest hroot.2]
        simp [tablesOfRecs, colsOfRecs, List.filterMap_cons, hdec]
      | indexEntry =>
        rw [ih ts cs hwrest hroot.2]
        simp [tablesOfRecs, colsOfRecs, List.filterMap_cons, hdec]
      | chunkMeta =>
        rw [ih ts cs hwrest hroot.2]
        simp [tablesOfRecs, colsOfRecs, List.filterMap_cons, hdec]

/-- On well-formed records one of which carries the CatalogRoot tag, the
slot scan of `load_catalog` fails with InvalidData. -/
theorem collectRecords_err (recs : List (List Nat)) : ∀ ts cs,
    (∀ raw ∈ recs, recWellFormed raw = true) →
    hasRootRec recs = true →
    collectRecords recs ts cs = .err .invalidData := by
  induction recs with
  | nil => intro ts cs _ h; simp [hasRootRec] at h
  | cons raw rest ih =>
    intro ts cs hwf hroot
    have hw : recWellFormed raw = true := hwf raw (by simp)
    have hwrest : ∀ r ∈ rest, recWellFormed r = true := fun r hr => hwf r (by simp [hr])
    simp only [hasRootRec, List.any_cons, Bool.or_eq_true_iff] at hroot
    unfold recWellFormed at hw
    unfold collectRecords
    cases hdec : recordDecodeR raw with
    | none => rw [hdec] at hw; simp at hw
    | some p =>
      obtain ⟨rt, payload⟩ := p
      rw [hdec] at hw hroot
      dsimp only at hw hroot ⊢
      cases rt with
      | catalogRoot => rfl
      | catalogTable =>
        have hr : hasRootRec rest = true := by
          rcases hroot with h | h
          · simp at h
          · exact h
        cases hdes : TableMeta.deserialize payload with
        | ok t =>
          simp only [hdes]
          exact ih (ts ++ [t]) cs hwrest hr
        | err => simp [hdes] at hw
        | panicked => simp [hdes] at hw
      | catalogColumn =>
        have hr : hasRootRec rest = true := by
          rcases hroot with h | h
          · simp at h
          · exact h
        cases hdes : TableColumnR.deserialize payload with
        | ok c =>
          simp only [hdes]
          exact ih ts (cs ++ [c]) hwrest hr
        | err => simp [hdes] at hw
        | panicked => simp [hdes] at hw
      | heapRow =>
        have hr : hasRootRec rest = true := by
          rcases hroot with h | h
          · simp at h
          · exact h
        exact ih ts cs hwrest hr
      | indexEntry =>
        have hr : hasRootRec rest = true := by
          rcases hroot with h | h
          · simp at h
          · exact h
        exact ih ts cs hwrest hr
      | chunkMeta =>
        have hr : hasRootRec rest = true := by
          rcases hroot with h | h
          · simp at h
          · exact h
        exact ih ts cs hwrest hr

end FluxDb
namespace FluxDb

/-- The page loop of `load_catalog` against the chain it visits: on a
chain of well-formed records it errors with InvalidData if some record
carries the CatalogRoot tag, and otherwise appends exactly the chain's
CatalogTable and CatalogColumn records to its accumulators. -/
theorem collectLoop_of_walk : ∀ (fuel : Nat) (st : PagerState) (pid : Nat)
    (chain : List (Nat × PPage)) (ts : List TableMeta) (cs : List TableColumnR),
    walkChain fuel st pid = .ok chain →
    (∀ raw ∈ pagesRecords (chainPages chain), recWellFormed raw = true) →
    (hasRootRec (pagesRecords (chainPages chain)) = true →
      collectLoop fuel st pid ts cs = .err .invalidData) ∧
    (hasRootRec (pagesRecords (chainPages chain)) = false →
      collectLoop fuel st pid ts cs =
        .ok (ts ++ tablesOfRecs (pagesRecords (chainPages chain)),
             cs ++ colsOfRecs (pagesRecords (chainPages chain)))) := by
  intro fuel
  induction fuel with
  | zero =>
    intro st pid chain ts cs hw _
    cases hw
  | succ fuel ih =>
    intro st pid chain ts cs hw hwf
    unfold walkChain at hw
    unfold collectLoop
    by_cases hpid : pid = 0
    · rw [if_pos hpid] at hw ⊢
      cases hw
      refine ⟨fun h => ?_, fun _ => ?_⟩
      · simp [chainPages, pagesRecords, hasRootRec] at h
      · simp [chainPages, pagesRecords, tablesOfRecs, colsOfRecs]
    · rw [if_neg hpid] at hw ⊢
      cases hread : readPage st pid with
      | ok page =>
        rw [hread] at hw
        simp only [FRes.bind_ok] at hw
        cases hrest : walkChain fuel st page.nextPageId with
        | ok rest =>
          rw [hrest] at hw
          simp only [FRes.bind_ok] at hw
          cases hw
          simp only [FRes.bind_ok]
          simp only [chainPages, pagesRecords, List.map_cons, List.flatten_cons] at hwf ⊢
          have hwf1 : ∀ raw ∈ page.records, recWellFormed raw = true := by
            intro raw hr
            exact hwf raw (List.mem_append.mpr (Or.inl hr))
          have hwf2 : ∀ raw ∈ (List.map PPage.records (List.map Prod.snd rest)).flatten,
              recWellFormed raw = true := by
            intro raw hr
            exact hwf raw (List.mem_append.mpr (Or.inr hr))
          have hih := fun ts1 cs1 => ih st page.nextPageId rest ts1 cs1 hrest
            (by simpa [chainPages, pagesRecords] using hwf2)
          simp only [chainPages, pagesRecords] at hih
          refine ⟨fun h => ?_, fun h => ?_⟩
          · simp only [hasRootRec, List.any_append, Bool.or_eq_true_iff] at h
            rcases h with h | h
            · rw [collectRecords_err page.records ts cs hwf1 h]
              rfl
            · cases hroots : hasRootRec page.records with
              | true =>
                rw [collectRecords_err page.records ts cs hwf1 hroots]
                rfl
              | false =>
                rw [collectRecords_ok page.records ts cs hwf1 hroots]
                simp only [FRes.bind_ok]
                exact (hih (ts ++ tablesOfRecs page.records)
                  (cs ++ colsOfRecs page.records)).1 h
          · simp only [hasRootRec, List.any_append, Bool.or_eq_false_iff] at h
            rw [collectRecords_ok page.records ts cs hwf1 h.1]
            simp only [FRes.bind_ok]
            rw [(hih (ts ++ tablesOfRecs page.records)
              (cs ++ colsOfRecs page.records)).2 h.2]
            simp [hasRootRec, tablesOfRecs, colsOfRecs, List.filterMap_append,
              List.append_assoc]
        | err e => rw [hrest] at hw; cases hw
        | panicked => rw [hrest] at hw; cases hw
        | noFuel => rw [hrest] at hw; cases hw
      | err e => rw [hread] at hw; cases hw
      | panicked => rw [hread] at hw; cases hw
      | noFuel => rw [hread] at hw; cases hw

end FluxDb
namespace FluxDb

/-- C8: `load_catalog` fails with InvalidData when the stored
`catalog_root_page_id` is 0; on a nonzero root id whose chain holds only
well-formed records it fails with InvalidData exactly when some record of
the chain carries the CatalogRoot tag, and otherwise succeeds with the
catalog whose three indices are built from exactly the chain's
CatalogTable and CatalogColumn records, in chain order. -/
theorem c8_load_catalog_behaviour {fuel : Nat} {st : PagerState}
    {root : CatalogRoot}
    (hroot : loadCatalogRoot st = .ok root) :
    (root.catalogRootPageId = 0 → loadCatalog fuel st = .err .invalidData) ∧
    (root.catalogRootPageId ≠ 0 →
      ∀ chain, walkChain fuel st root.catalogRootPageId = .ok chain →
        (∀ raw ∈ pagesRecords (chainPages chain), recWellFormed raw = true) →
        (hasRootRec (pagesRecords (chainPages chain)) = true →
          loadCatalog fuel st = .err .invalidData) ∧
        (hasRootRec (pagesRecords (chainPages chain)) = false →
          loadCatalog fuel st = .ok
            (buildCatalog (tablesOfRecs (pagesRecords (chainPages chain)))
                          (colsOfRecs (pagesRecords (chainPages chain)))))) := by
  constructor
  · intro h0
    unfold loadCatalog
    rw [hroot]
    simp only [FRes.bind_ok]
    rw [if_pos h0]
  · intro hne chain hw hwf
    have hcl := collectLoop_of_walk fuel st root.catalogRootPageId chain [] [] hw hwf
    constructor
    · intro h
      unfold loadCatalog
      rw [hroot]
      simp only [FRes.bind_ok]
      rw [if_neg hne, hcl.1 h]
      rfl
    · intro h
      unfold loadCatalog
      rw [hroot]
      simp only [FRes.bind_ok]
      rw [if_neg hne, hcl.2 h]
      simp only [FRes.bind_ok, List.nil_append]

set_option maxRecDepth 10000 in
/-- Witness: on the concrete state holding table `users`, the heap chain
is the single page 1 and `load_catalog` builds the catalog from exactly
that page's records. -/
theorem c8_load_catalog_witness :
    walkChain 9 stDup9 1 = .ok c8chain ∧
      loadCatalog 9 stDup9 = .ok
        (buildCatalog (tablesOfRecs (pagesRecords (chainPages c8chain)))
                      (colsOfRecs (pagesRecords (chainPages c8chain)))) := by
  have hroot : loadCatalogRoot stDup9 = .ok ⟨1, 2, 1, 1⟩ := by decide
  have hw : walkChain 9 stDup9 1 = .ok c8chain := by decide
  have h := (c8_load_catalog_behaviour hroot).2 (by decide) c8chain hw (by decide)
  exact ⟨hw, h.2 (by decide)⟩

end FluxDb
namespace FluxDb

/-- `tablesOfRecs` distributes over append. -/
theorem tablesOfRecs_append (a b : List (List Nat)) :
    tablesOfRecs (a ++ b) = tablesOfRecs a ++ tablesOfRecs b := by
  simp [tablesOfRecs, List.filterMap_append]

/-- On well-formed records, the per-page scan of `find_table_by_name`
returns the first CatalogTable record whose name matches, in slot
order. -/
theorem findInRecords_eq (recs : List (List Nat)) (name : ByteStr) :
    (∀ raw ∈ recs, recWellFormed raw = true) →
    findInRecords recs name =
      .ok ((tablesOfRecs recs).find? fun t => decide (t.name = name)) := by
  induction recs with
  | nil =>
    intro _
    simp [findInRecords, tablesOfRecs]
  | cons raw rest ih =>
    intro hwf
    have hw : recWellFormed raw = true := hwf raw (by simp)
    have hwrest : ∀ r ∈ rest, recWellFormed r = true := fun r hr => hwf r (by simp [hr])
    unfold recWellFormed at hw
    unfold findInRecords
    cases hdec : recordDecodeR raw with
    | none => rw [hdec] at hw; simp at hw
    | some p =>
      obtain ⟨rt, payload⟩ := p
      rw [hdec] at hw
      dsimp only at hw
      cases rt with
      | catalogRoot =>
        rw [ih hwrest]
        simp [tablesOfRecs, List.filterMap_cons, hdec]
      | catalogTable =>
        cases hdes : TableMeta.deserialize payload with
        | ok t =>
          simp only [hdes]
          by_cases hn : t.name = name
          · rw [if_pos hn]
            have : (tablesOfRecs (raw :: rest)).find? (fun t => decide (t.name = name)) =
                some t := by
              have ht : tablesOfRecs (raw :: rest) = t :: tablesOfRecs rest := by
                simp [tablesOfRecs, List.filterMap_cons, hdec, hdes]
              rw [ht]
              exact List.find?_cons_of_pos _ (by simp [hn])
            rw [this]
            simp
          · rw [if_neg hn, ih hwrest]
            have ht : tablesOfRecs (raw :: rest) = t :: tablesOfRecs rest := by
              simp [tablesOfRecs, List.filterMap_cons, hdec, hdes]
            rw [ht, List.find?_cons_of_neg _ (by simp [hn])]
            simp
        | err => simp [hdes] at hw
        | panicked => simp [hdes] at hw
      | catalogColumn =>
        rw [ih hwrest]
        simp [tablesOfRecs, List.filterMap_cons, hdec]
      | heapRow =>
        rw [ih hwrest]
        simp [tablesOfRecs, List.filterMap_cons, hdec]
      | indexEntry =>
        rw [ih hwrest]
        simp [tablesOfRecs, List.filterMap_cons, hdec]
      | chunkMeta =>
        rw [ih hwrest]
        simp [tablesOfRecs, List.filterMap_cons, hdec]

/-- Against the chain it visits, `find_table_by_name`'s page loop returns
the chain-order-first CatalogTable record with a matching name, and
NotFound when none matches. -/
theorem findLoop_eq : ∀ (fuel : Nat) (st : PagerState) (pid : Nat)
    (chain : List (Nat × PPage)) (name : ByteStr),
    walkChain fuel st pid = .ok chain →
    (∀ raw ∈ pagesRecords (chainPages chain), recWellFormed raw = true) →
    findLoop fuel st pid name =
      match (tablesOfRecs (pagesRecords (chainPages chain))).find?
          (fun t => decide (t.name = name)) with
      | some t => .ok t
      | none => .err .notFound := by
  intro fuel
  induction fuel with
  | zero =>
    intro st pid chain name hw _
    cases hw
  | succ fuel ih =>
    intro st pid chain name hw hwf
    unfold walkChain at hw
    unfold findLoop
    by_cases hpid : pid = 0
    · rw [if_pos hpid] at hw ⊢
      cases hw
      simp [chainPages, pagesRecords, tablesOfRecs]
    · rw [if_neg hpid] at hw ⊢
      cases hread : readPage st pid with
      | ok page =>
        rw [hread] at hw
        simp only [FRes.bind_ok] at hw
        simp only [FRes.bind_ok]
        cases hrest : walkChain fuel st page.nextPageId with
        | ok rest =>
          rw [hrest] at hw
          simp only [FRes.bind_ok] at hw
          cases hw
          simp only [chainPages, pagesRecords, List.map_cons, List.flatten_cons] at hwf ⊢
          have hwf1 : ∀ raw ∈ page.records, recWellFormed raw = true := by
            intro raw hr
            exact hwf raw (List.mem_append.mpr (Or.inl hr))
          have hwf2 : ∀ raw ∈ (List.map PPage.records (List.map Prod.snd rest)).flatten,
              recWellFormed raw = true := by
            intro raw hr
            exact hwf raw (List.mem_append.mpr (Or.inr hr))
          rw [findInRecords_eq page.records name hwf1]
          simp only [FRes.bind_ok]
          rw [tablesOfRecs_append, List.find?_append]
          cases hfp : (tablesOfRecs page.records).find? (fun t => decide (t.name = name)) with
          | some t =>
            rfl
          | none =>
            have hihr := ih st page.nextPageId rest name hrest
              (by simpa [chainPages, pagesRecords] using hwf2)
            simp only [chainPages, pagesRecords] at hihr
            rw [hihr]
            rfl
        | err e => rw [hrest] at hw; cases hw
        | panicked => rw [hrest] at hw; cases hw
        | noFuel => rw [hrest] at hw; cases hw
      | err e => rw [hread] at hw; cases hw
      | panicked => rw [hread] at hw; cases hw
      | noFuel => rw [hread] at hw; cases hw

end FluxDb
namespace FluxDb

/-- Lookup after a hash-map put. -/
theorem alookup_aput {α β : Type} [DecidableEq α] (k k1 : α) (v : β)
    (m : List (α × β)) :
    alookup k (aput k1 v m) = if k1 = k then some v else alookup k m := by
  induction m with
  | nil => simp [alookup, aput]
  | cons p rest ih =>
    obtain ⟨k2, v2⟩ := p
    by_cases h2 : k2 = k1
    · subst h2
      by_cases hk : k2 = k
      · subst hk
        simp [alookup, aput]
      · simp [alookup, aput, hk]
    · by_cases hk : k2 = k
      · subst hk
        simp [alookup, aput, h2, Ne.symm h2]
      · simp [alookup, aput, h2, hk, ih]

/-- Name lookup in the `tables_by_name` index built by `load_catalog`:
the LAST table in insertion order with a matching name wins (each `aput`
overwrites the previous binding). -/
theorem alookup_foldl_aput (l : List TableMeta) : ∀ (m0 : List (ByteStr × Nat))
    (name : ByteStr),
    alookup name (l.foldl (fun m t => aput t.name t.tableId m) m0) =
      match l.reverse.find? (fun t => decide (t.name = name)) with
      | some t => some t.tableId
      | none => alookup name m0 := by
  induction l with
  | nil =>
    intro m0 name
    simp [List.find?]
  | cons t rest ih =>
    intro m0 name
    rw [List.foldl_cons, ih, List.reverse_cons, List.find?_append]
    cases hfr : rest.reverse.find? (fun t => decide (t.name = name)) with
    | some u => rfl
    | none =>
      by_cases hn : t.name = name
      · have : List.find? (fun t => decide (t.name = name)) [t] = some t :=
          List.find?_cons_of_pos _ (by simp [hn])
        rw [this]
        dsimp only [Option.or]
        rw [alookup_aput, if_pos hn]
      · have : List.find? (fun t => decide (t.name = name)) [t] = none := by
          rw [List.find?_cons_of_neg _ (by simp [hn])]
          rfl
        rw [this]
        dsimp only [Option.or]
        rw [alookup_aput, if_neg hn]

end FluxDb
namespace FluxDb

/-- C9: `create_table` performs no duplicate-name check — it can succeed
on a name that already appears in the catalog, appending a second
CatalogTable record whose `table_id` is the fresh counter value.  On the
resulting chain, `find_table_by_name` returns the chain-order-first
matching record (the old one), while the `tables_by_name` index rebuilt
by `load_catalog` maps the name to the chain-order-last matching record
(the new one), so the two lookup paths disagree on duplicated names. -/
theorem c9_duplicate_name_lookup_disagreement {fuel : Nat}
    {st st2 : PagerState} {root : CatalogRoot} {name : ByteStr}
    {tm told : TableMeta} {chain2 : List (Nat × PPage)}
    (hroot : loadCatalogRoot st = .ok root)
    (hc : createTable fuel st name = .ok (tm, st2))
    (hcrp : root.catalogRootPageId ≠ 0)
    (hcrplt : root.catalogRootPageId < 4294967296)
    (hw2 : walkChain fuel st2 root.catalogRootPageId = .ok chain2)
    (hwf2 : ∀ raw ∈ pagesRecords (chainPages chain2), recWellFormed raw = true)
    (hnoroot2 : hasRootRec (pagesRecords (chainPages chain2)) = false)
    (hfirst : (tablesOfRecs (pagesRecords (chainPages chain2))).find?
        (fun t => decide (t.name = name)) = some told)
    (hlast : (tablesOfRecs (pagesRecords (chainPages chain2))).reverse.find?
        (fun t => decide (t.name = name)) = some tm)
    (hneq : told.tableId ≠ root.nextTableId) :
    tm = ⟨root.nextTableId, name⟩ ∧
    told.name = name ∧
    findTableByName fuel st2 name = .ok told ∧
    (∃ cat, loadCatalog fuel st2 = .ok cat ∧
      alookup name cat.tablesByName = some tm.tableId) ∧
    told.tableId ≠ tm.tableId := by
  obtain ⟨root0, hroot0, htm, hload2, hps, hpos⟩ := createTable_step hc
  rw [hroot] at hroot0
  cases hroot0
  have hcrpeq : (CatalogRoot.stored
      ⟨root.version, root.nextTableId + 1, root.nextColumnId,
       root.catalogRootPageId⟩).catalogRootPageId = root.catalogRootPageId := by
    simp only [CatalogRoot.stored]
    omega
  refine ⟨htm, ?_, ?_, ?_, ?_⟩
  · have hp := List.find?_some hfirst
    simpa using hp
  · unfold findTableByName
    rw [hload2]
    simp only [FRes.bind_ok]
    rw [hcrpeq, findLoop_eq fuel st2 root.catalogRootPageId chain2 name hw2 hwf2,
      hfirst]
  · refine ⟨buildCatalog (tablesOfRecs (pagesRecords (chainPages chain2)))
      (colsOfRecs (pagesRecords (chainPages chain2))), ?_, ?_⟩
    · unfold loadCatalog
      rw [hload2]
      simp only [FRes.bind_ok]
      rw [hcrpeq, if_neg hcrp,
        (collectLoop_of_walk fuel st2 root.catalogRootPageId chain2 [] [] hw2 hwf2).2
          hnoroot2]
      simp only [FRes.bind_ok, List.nil_append]
    · unfold buildCatalog
      rw [alookup_foldl_aput, hlast]
  · rw [htm]
    exact hneq

set_option maxRecDepth 10000 in
/-- Witness: on the concrete state already holding table `users` (id 1,
counter at 2), `create_table(users)` succeeds with the fresh id 2;
afterwards `find_table_by_name(users)` returns the old record `⟨1, users⟩`
while the rebuilt `tables_by_name` maps `users` to 2. -/
theorem c9_duplicate_name_witness :
    createTable 9 stDup9 nameUsers = .ok (⟨2, nameUsers⟩, c9st2) ∧
      findTableByName 9 c9st2 nameUsers = .ok ⟨1, nameUsers⟩ ∧
      (∃ cat, loadCatalog 9 c9st2 = .ok cat ∧
        alookup nameUsers cat.tablesByName = some 2) ∧
      (1 : Nat) ≠ 2 := by
  have hroot : loadCatalogRoot stDup9 = .ok ⟨1, 2, 1, 1⟩ := by decide
  have hc : createTable 9 stDup9 nameUsers = .ok (⟨2, nameUsers⟩, c9st2) := by decide
  have hw2 : walkChain 9 c9st2 1 = .ok c9chain2 := by decide
  have hfirst : (tablesOfRecs (pagesRecords (chainPages c9chain2))).find?
      (fun t => decide (t.name = nameUsers)) = some ⟨1, nameUsers⟩ := by decide
  have hlast : (tablesOfRecs (pagesRecords (chainPages c9chain2))).reverse.find?
      (fun t => decide (t.name = nameUsers)) = some ⟨2, nameUsers⟩ := by decide
  have h := c9_duplicate_name_lookup_disagreement hroot hc (by decide) (by decide)
    hw2 (by decide) (by decide) hfirst hlast (by decide)
  exact ⟨hc, h.2.2.1, h.2.2.2.1, by decide⟩

end FluxDb
